import Mathlib

/- Verification of the session-topology export/import engine of the
chrome-new-tab repository: a shallow embedding of the importTabs
reconstruction algorithm of the TabExportImport component, together with
proofs of the specified properties.

Host (browser) calls are modelled by an outcome oracle deciding whether
each fallible chrome.* call succeeds; calls whose failure the source
swallows with no observable state effect (assigning a created tab to a
group, discarding a tab, removing the placeholder tab) need no outcome.
Within one batch, Promise.all starts one async task per tab; the
per-task importedCount++ / progress-report pair is synchronous on the
single-threaded event loop and per-task outcomes are independent of each
other, so the batch is serialised in list order without loss of
generality. -/

namespace ChromeNewTab

/-- An exported tab entry of the snapshot. Fields read by importTabs are
kept; the optional fields that importTabs never reads (favIconUrl,
audible, lastAccessed) are omitted, and muted models mutedInfo.muted. -/
structure ExportedTab where
  url : String
  title : String
  pinned : Bool
  groupId : Int
  index : Int
  windowId : Int
  active : Bool
  muted : Bool
deriving DecidableEq

/-- An exported tab-group entry of the snapshot. -/
structure ExportedGroup where
  id : Int
  title : Option String
  color : String
  collapsed : Bool
deriving DecidableEq

/-- The parsed export file content as consumed by the reconstruction
(importTabs never reads the windows list, version, exportDate or
totalTabs fields, so they are omitted). -/
structure ExportData where
  tabs : List ExportedTab
  groups : List ExportedGroup
deriving DecidableEq

/-- The raw top-level tabs field of a parsed import file, before the
shape check of importTabs: data.tabs may be absent, present but not an
array, or an array of entries of type a. -/
inductive TabsField (a : Type) where
  | absent : TabsField a
  | nonArray : TabsField a
  | arr (ts : List a) : TabsField a
deriving DecidableEq

/-- A raw tab entry as parsed from JSON: the url field may be missing.
The shape check of importTabs inspects no per-entry field at all. -/
structure RawTab where
  url : Option String
deriving DecidableEq

/-- The shape check of importTabs on the parsed data, from
if (!data.tabs || !Array.isArray(data.tabs)) throw new Error(...):
a falsy tabs value fails the first disjunct, a truthy non-array fails the
second, and an array (even empty, even with entries missing a url)
passes. -/
def validateTabs {a : Type} : TabsField a → Bool
  | .arr _ => true
  | _ => false

/-- Following the spec's words for claim C4 (deserialisation contract):
reject exactly when the top-level tabs field is absent or not a sequence,
or when some tab entry lacks a url. Spec-side statement, to be compared
with validateTabs. -/
def specRejects : TabsField RawTab → Bool
  | .arr ts => ts.any (fun t => t.url.isNone)
  | _ => true

/-- Outcome oracle for the fallible host calls issued by importTabs,
keyed by stable identities: tab creation and the mute update by the
tab's position in data.tabs, the three group-creation steps by the
original group id (the modelled host is deterministic per key), window
creation by its ordinal. -/
structure Oracle where
  tabGroupsAvail : Bool
  currentWindowOk : Bool
  currentWindowId : Int
  createWindowOk : Nat → Bool
  newWindowId : Nat → Int
  tempTabOk : Int → Bool
  groupTempOk : Int → Bool
  groupUpdateOk : Int → Bool
  createTabOk : Nat → Bool
  muteOk : Nat → Bool

/-- Trace of host operations attempted by the import, annotated with the
originating snapshot data (tab position in data.tabs, original window id
and index, original group id) so that properties can be stated on the
trace. -/
inductive Event where
  | getCurrentWindow : Event
  | createWindow (wid : Int) : Event
  | createTempTab (origGid : Int) (targetWin : Int) (tid : Nat) : Event
  | groupTemp (origGid : Int) (tid : Nat) (ngid : Int) : Event
  | updateGroup (origGid : Int) (ngid : Int) : Event
  | removeTemp (origGid : Int) (tid : Nat) : Event
  | createTab (pos : Nat) (origWin idx targetWin : Int) (url : String)
      (pinned : Bool) (tid : Nat) : Event
  | assignGroup (origGid : Int) (pos tid : Nat) (ngid : Int) : Event
  | muteTab (pos tid : Nat) : Event
  | discardTab (pos tid : Nat) : Event
  | sleep : Event
deriving DecidableEq

/-- Mutable state of one importTabs invocation: the emitted host-call
trace, the trace of setImportProgress calls, the groupIdMap remap
table, importedCount, and host id counters for created tabs, groups
and windows. -/
structure St where
  events : List Event
  progress : List (Option (Nat × Nat))
  groupIdMap : List (Int × Int)
  importedCount : Nat
  nextTabId : Nat
  nextGroupId : Nat
  winOrd : Nat
deriving DecidableEq

/-- Lookup in the groupIdMap remap table (Map.get / Map.has). -/
def alookup : List (Int × Int) → Int → Option Int
  | [], _ => none
  | (k, v) :: r, g => if k = g then some v else alookup r g

/-- The ceiling of n / bs, the number of batches the loop
for (let i = 0; i < n; i += bs) executes for bs that is at least 1. -/
def ceilDiv (n bs : Nat) : Nat := (n + bs - 1) / bs

/-- One advance of the batch loop index of importTabs (i += batchSize). -/
def batchIndexStep (bs i : Nat) : Nat := i + bs

/-- Fuel-driven splitting into consecutive batches of bs, mirroring
windowTabs.slice(i, i + batchSize) for i = 0, bs, 2bs, ...; the fuel is
instantiated with the list length, which suffices whenever bs is at
least 1 (for bs = 0 the source loop never advances i and diverges, see
the termination theorem). -/
def chunkGo {a : Type} (bs : Nat) : Nat → List a → List (List a)
  | 0, _ => []
  | _, [] => []
  | fuel + 1, x :: xs => ((x :: xs).take bs) :: chunkGo bs fuel ((x :: xs).drop bs)

/-- The consecutive batches of bs tabs of a window partition. -/
def chunkList {a : Type} (bs : Nat) (l : List a) : List (List a) :=
  chunkGo bs l.length l

/-- The window-partition map of importTabs: insert one (position, tab)
pair into the bucket of its windowId, appending a new bucket at the end
on first sight of a window id (JS Map insertion order). -/
def insertTab (m : List (Int × List (Nat × ExportedTab))) (t : Nat × ExportedTab) :
    List (Int × List (Nat × ExportedTab)) :=
  match m with
  | [] => [(t.2.windowId, [t])]
  | (w, ts) :: rest =>
    if w = t.2.windowId then (w, ts ++ [t]) :: rest
    else (w, ts) :: insertTab rest t

/-- data.tabs.forEach building the tabsByWindow map, with each tab
paired with its position in data.tabs. -/
def tabsByWindow (l : List (Nat × ExportedTab)) : List (Int × List (Nat × ExportedTab)) :=
  l.foldl insertTab []

/-- windowTabs.sort((a, b) => a.index - b.index): stable ascending sort
by the exported index (a structurally recursive stable sort, so that the
model evaluates on concrete snapshots). -/
def sortByIndex (l : List (Nat × ExportedTab)) : List (Nat × ExportedTab) :=
  l.insertionSort (fun x y => x.2.index ≤ y.2.index)

/-- Whether the per-tab async task of importTabs reaches importedCount++:
the chrome.tabs.create call succeeds and, when the tab was muted, the
un-guarded chrome.tabs.update mute call succeeds too (a group-assignment
or discard failure is swallowed by an inner catch and the tab still
counts). -/
def tabOk (o : Oracle) (pt : Nat × ExportedTab) : Bool :=
  o.createTabOk pt.1 && (!pt.2.muted || o.muteOk pt.1)

/-- The host calls attempted by the per-tab async task: create the tab;
if created, assign it to its remapped group when groupId is not the -1
sentinel, the remap table has a mapping and the groups API is available;
mute it if it was muted (on mute failure the task aborts before
discard); then discard it. -/
def tabEmits (o : Oracle) (map : List (Int × Int)) (targetWin : Int) (tid : Nat)
    (pt : Nat × ExportedTab) : List Event :=
  Event.createTab pt.1 pt.2.windowId pt.2.index targetWin pt.2.url pt.2.pinned tid ::
  (if o.createTabOk pt.1 then
    (if pt.2.groupId = -1 then []
     else
      match alookup map pt.2.groupId with
      | some ngid =>
        if o.tabGroupsAvail then [Event.assignGroup pt.2.groupId pt.1 tid ngid] else []
      | none => []) ++
    (if pt.2.muted then
      Event.muteTab pt.1 tid ::
      (if o.muteOk pt.1 then [Event.discardTab pt.1 tid] else [])
     else [Event.discardTab pt.1 tid])
  else [])

/-- One per-tab async task of a batch: emit its host calls, advance the
tab id counter, and on success advance importedCount and report
progress. -/
def doTab (o : Oracle) (total : Nat) (targetWin : Int) (s : St)
    (pt : Nat × ExportedTab) : St :=
  { s with
    events := s.events ++ tabEmits o s.groupIdMap targetWin s.nextTabId pt,
    nextTabId := s.nextTabId + 1,
    importedCount := s.importedCount + (if tabOk o pt then 1 else 0),
    progress := s.progress ++
      (if tabOk o pt then [some (s.importedCount + 1, total)] else []) }

/-- Whether the group-creation sequence for an original group id runs to
the point where the remap table is written: placeholder creation,
grouping and metadata update must all succeed (a failure of the final
placeholder removal is caught after the table was already written). -/
def groupCreateOk (o : Oracle) (gid : Int) : Bool :=
  o.tempTabOk gid && o.groupTempOk gid && o.groupUpdateOk gid

/-- The host calls attempted by one group-creation sequence: create a
placeholder tab, group it, apply the group metadata, remove the
placeholder; a failing step aborts the rest of the sequence (caught by
the surrounding try). -/
def groupEmits (o : Oracle) (gid : Int) (targetWin : Int) (tid : Nat) (ngid : Int) :
    List Event :=
  Event.createTempTab gid targetWin tid ::
  (if o.tempTabOk gid then
    Event.groupTemp gid tid ngid ::
    (if o.groupTempOk gid then
      Event.updateGroup gid ngid ::
      (if o.groupUpdateOk gid then [Event.removeTemp gid tid] else [])
     else [])
   else [])

/-- One group-creation sequence for a group not yet in the remap table:
emit its host calls, advance the id counters, and write the table entry
when the sequence reached the write. -/
def doGroupCreate (o : Oracle) (g : ExportedGroup) (targetWin : Int) (s : St) : St :=
  { s with
    events := s.events ++ groupEmits o g.id targetWin s.nextTabId (Int.ofNat s.nextGroupId),
    nextTabId := s.nextTabId + 1,
    nextGroupId := s.nextGroupId + (if o.tempTabOk g.id then 1 else 0),
    groupIdMap := s.groupIdMap ++
      (if groupCreateOk o g.id then [(g.id, Int.ofNat s.nextGroupId)] else []) }

/-- data.groups.filter(g => windowTabs.some(t => t.groupId === g.id)). -/
def windowGroups (groups : List ExportedGroup) (wtabs : List (Nat × ExportedTab)) :
    List ExportedGroup :=
  groups.filter (fun g => wtabs.any (fun t => decide (t.2.groupId = g.id)))

/-- The group-recreation phase of one window: when the groups API is
available, run the group-creation sequence for every group referenced by
this window's tabs that the remap table does not know yet. -/
def doGroups (o : Oracle) (groups : List ExportedGroup) (wtabs : List (Nat × ExportedTab))
    (targetWin : Int) (s : St) : St :=
  if o.tabGroupsAvail then
    (windowGroups groups wtabs).foldl
      (fun s' g =>
        if (alookup s'.groupIdMap g.id).isSome then s' else doGroupCreate o g targetWin s')
      s
  else s

/-- One settled batch: run every per-tab task, then the unconditional
inter-batch sleep of batchDelay (the source sleeps after every batch,
including the last one). -/
def doBatch (o : Oracle) (total : Nat) (targetWin : Int) (s : St)
    (batch : List (Nat × ExportedTab)) : St :=
  let s' := batch.foldl (doTab o total targetWin) s
  { s' with events := s'.events ++ [Event.sleep] }

/-- The batch loop of one window partition. -/
def doBatches (o : Oracle) (bs total : Nat) (targetWin : Int)
    (sorted : List (Nat × ExportedTab)) (s : St) : St :=
  (chunkList bs sorted).foldl (doBatch o total targetWin) s

/-- One window partition: sort its tabs by index, obtain the target
window (the caller's current window for the first partition, a newly
created unfocused window otherwise; a failure of either call escapes to
the outer catch and aborts the import), then recreate groups and run the
batches. -/
def doWindow (o : Oracle) (bs total : Nat) (groups : List ExportedGroup) (isFirst : Bool)
    (s : St) (p : Int × List (Nat × ExportedTab)) : Except St St :=
  let sorted := sortByIndex p.2
  if isFirst then
    let s1 := { s with events := s.events ++ [Event.getCurrentWindow] }
    if o.currentWindowOk then
      Except.ok (doBatches o bs total o.currentWindowId sorted
        (doGroups o groups sorted o.currentWindowId s1))
    else Except.error s1
  else
    let s1 :=
      { s with
        events := s.events ++ [Event.createWindow (o.newWindowId s.winOrd)],
        winOrd := s.winOrd + 1 }
    if o.createWindowOk s.winOrd then
      Except.ok (doBatches o bs total (o.newWindowId s.winOrd) sorted
        (doGroups o groups sorted (o.newWindowId s.winOrd) s1))
    else Except.error s1

/-- The for (const [oldWindowId, windowTabs] of tabsByWindow) loop; the
first partition is recognised by comparing its key with the first key of
the map, as in oldWindowId === Array.from(tabsByWindow.keys())[0]. -/
def processWindows (o : Oracle) (bs total : Nat) (groups : List ExportedGroup)
    (firstKey : Option Int) :
    List (Int × List (Nat × ExportedTab)) → St → Except St St
  | [], s => Except.ok s
  | p :: rest, s =>
    match doWindow o bs total groups (decide (firstKey = some p.1)) s p with
    | Except.ok s' => processWindows o bs total groups firstKey rest s'
    | Except.error s' => Except.error s'

/-- The final UI status message of an import. -/
inductive StatusMsg where
  | success (n : Nat) : StatusMsg
  | failure : StatusMsg
deriving DecidableEq

/-- Observable outcome of one importTabs invocation: whether the try
block completed, the final status message, the final importedCount, the
host-call trace, and the trace of setImportProgress calls (including the
initial reset and the reset performed by the finally block). -/
structure ImportOutcome where
  ok : Bool
  message : StatusMsg
  importedCount : Nat
  events : List Event
  progress : List (Option (Nat × Nat))
deriving DecidableEq

/-- The reconstruction after a successful shape check: partition by
window, then process every partition; an escaped host error aborts
with the failure message, otherwise the success message reports
the importedCount. The finally block resets the progress signal in both
cases. -/
def runImport (o : Oracle) (batchSize : Nat) (d : ExportData) : ImportOutcome :=
  let total := d.tabs.length
  let parts := tabsByWindow d.tabs.enum
  let s0 : St :=
    { events := [], progress := [none, some (0, total)], groupIdMap := [],
      importedCount := 0, nextTabId := 0, nextGroupId := 0, winOrd := 0 }
  match processWindows o batchSize total d.groups (parts.head?.map Prod.fst) parts s0 with
  | Except.ok s =>
    { ok := true, message := StatusMsg.success s.importedCount,
      importedCount := s.importedCount, events := s.events,
      progress := s.progress ++ [none] }
  | Except.error s =>
    { ok := false, message := StatusMsg.failure, importedCount := s.importedCount,
      events := s.events, progress := s.progress ++ [none] }

/-- A parsed import file: the raw tabs field plus the groups list. -/
structure ParsedFile where
  ptabs : TabsField ExportedTab
  groups : List ExportedGroup

/-- The whole importTabs callback on a parsed file: the initial progress
reset, the shape check (whose failure aborts with the error message
before any host call), the reconstruction, and the finally block
resetting the progress signal. -/
def importTabs (o : Oracle) (batchSize : Nat) (pf : ParsedFile) : ImportOutcome :=
  match pf.ptabs with
  | TabsField.arr ts => runImport o batchSize { tabs := ts, groups := pf.groups }
  | _ =>
    { ok := false, message := StatusMsg.failure, importedCount := 0, events := [],
      progress := [none, none] }

/-- Recognisers and counters over the host-call trace. -/
def isCreateTab : Event → Bool
  | Event.createTab .. => true
  | _ => false

def isSleep : Event → Bool
  | Event.sleep => true
  | _ => false

def isTempFor (g : Int) : Event → Bool
  | Event.createTempTab g' _ _ => decide (g' = g)
  | _ => false

/-- Number of replay tab-creation attempts in a trace (placeholder tabs
created during group recreation are counted separately). -/
def countCreate (es : List Event) : Nat := es.countP isCreateTab

/-- Number of inter-batch sleeps in a trace; the source sleeps exactly
once per executed batch, so this also counts batches. -/
def countSleep (es : List Event) : Nat := es.countP isSleep

/-- Number of group-creation sequences started for an original group
id. -/
def countTemp (g : Int) (es : List Event) : Nat := es.countP (isTempFor g)

/-- The index fields of the replayed tab creations whose originating
window was w, in emission order. -/
def projIdx (w : Int) (es : List Event) : List Int :=
  es.filterMap (fun e =>
    match e with
    | Event.createTab _ ow idx _ _ _ _ => if ow = w then some idx else none
    | _ => none)

/-- The batches the import executes: one ceiling-division count per
window partition. -/
def totalBatches (d : ExportData) (bs : Nat) : Nat :=
  ((tabsByWindow d.tabs.enum).map (fun p => ceilDiv p.2.length bs)).sum

/-- All pairs of a partition list, in partition order. -/
def flattenParts (parts : List (Int × List (Nat × ExportedTab))) :
    List (Nat × ExportedTab) :=
  (parts.map Prod.snd).flatten

/-- The state carried out of the window loop, whether it completed or an
escaped host error aborted it. -/
def outState : Except St St → St
  | Except.ok s => s
  | Except.error s => s

/-- An all-success host. -/
def allOk : Oracle :=
  { tabGroupsAvail := true, currentWindowOk := true, currentWindowId := 1,
    createWindowOk := fun _ => true, newWindowId := fun k => Int.ofNat (100 + k),
    tempTabOk := fun _ => true, groupTempOk := fun _ => true,
    groupUpdateOk := fun _ => true, createTabOk := fun _ => true,
    muteOk := fun _ => true }

/-- A plain ungrouped tab of a given window and index. -/
def plainTab (w idx : Int) (u : String) : ExportedTab :=
  { url := u, title := "", pinned := false, groupId := -1, index := idx,
    windowId := w, active := false, muted := false }

/-- Every pair of a partition bucket carries the bucket's window id. -/
def partGood (m : List (Int × List (Nat × ExportedTab))) : Prop :=
  ∀ p ∈ m, ∀ x ∈ p.2, x.2.windowId = p.1

/-- The keys of the window-partition map. -/
def keysOf (m : List (Int × List (Nat × ExportedTab))) : List Int :=
  m.map Prod.fst

/-- The step function of the group-recreation fold: skip groups the
remap table already knows. -/
def gstep (o : Oracle) (targetWin : Int) (s' : St) (g : ExportedGroup) : St :=
  if (alookup s'.groupIdMap g.id).isSome then s' else doGroupCreate o g targetWin s'

/-- The progress trace of an import whose per-tab tasks succeeded n
times so far: the initial reset, the (0, total) report, then one report
per success. -/
def progShape (total n : Nat) : List (Option (Nat × Nat)) :=
  none :: some (0, total) :: (List.range n).map (fun k => some (k + 1, total))

/-- Every group assignment recorded so far used the mapping the remap
table holds for that original group id. -/
def AssignInv (s : St) : Prop :=
  ∀ (g : Int) (p t : Nat) (n : Int),
    Event.assignGroup g p t n ∈ s.events → alookup s.groupIdMap g = some n

/-- The group-creation sequence for an original group id ran at most
once, and exactly once when the remap table knows the id. -/
def GroupOnce (g : Int) (s : St) : Prop :=
  countTemp g s.events ≤ 1 ∧
    ((alookup s.groupIdMap g).isSome = true ↔ countTemp g s.events = 1)

/-- The remap table never learned an original group id and no tab was
ever assigned to a group for it. -/
def NoGroupFor (g : Int) (s : St) : Prop :=
  alookup s.groupIdMap g = none ∧
    ∀ (p t : Nat) (n : Int), Event.assignGroup g p t n ∉ s.events

/-- The progress trace has the canonical shape for the current
count importedCount, which never exceeds the number of tab creations
attempted so far. -/
def ProgressOk (total : Nat) (s : St) : Prop :=
  s.progress = progShape total s.importedCount ∧
    s.importedCount ≤ countCreate s.events

/-- Concrete snapshots and hosts used to exhibit witnesses and
counterexamples. -/
def gBlue : ExportedGroup :=
  { id := 5, title := some "work", color := "blue", collapsed := false }

def groupedTab (w idx : Int) (u : String) : ExportedTab :=
  { plainTab w idx u with groupId := 5 }

def dGrouped : ExportData :=
  { tabs := [groupedTab 1 0 "a", groupedTab 2 0 "b"], groups := [gBlue] }

def dTwoWin : ExportData :=
  { tabs := [plainTab 1 0 "a", plainTab 2 0 "b"], groups := [] }

def dThree : ExportData :=
  { tabs := [plainTab 1 0 "a", plainTab 1 1 "b", plainTab 1 2 "c"], groups := [] }

def dPair : ExportData :=
  { tabs := [plainTab 1 0 "a", plainTab 1 1 "b"], groups := [] }

def oFail0 : Oracle := { allOk with createTabOk := fun p => decide (p ≠ 0) }

def oFail1 : Oracle := { allOk with createTabOk := fun p => decide (p ≠ 1) }

def oGroupFail : Oracle := { allOk with groupTempOk := fun _ => false }

def pfBad : ParsedFile := { ptabs := TabsField.absent, groups := [] }

def pfThree : ParsedFile := { ptabs := TabsField.arr dThree.tabs, groups := [] }

def pfGrouped : ParsedFile := { ptabs := TabsField.arr dGrouped.tabs, groups := [gBlue] }

/- Basic lemmas about the remap-table lookup. -/

theorem alookup_append_some {m m' : List (Int × Int)} {g v : Int}
    (h : alookup m g = some v) : alookup (m ++ m') g = some v := by
  induction m with
  | nil => simp [alookup] at h
  | cons kv r ih =>
    obtain ⟨k, w⟩ := kv
    by_cases hk : k = g
    · simp [alookup, hk] at h ⊢; exact h
    · simp [alookup, hk] at h ⊢; exact ih h

theorem alookup_append_none {m m' : List (Int × Int)} {g : Int}
    (h : alookup m g = none) : alookup (m ++ m') g = alookup m' g := by
  induction m with
  | nil => simp [alookup]
  | cons kv r ih =>
    obtain ⟨k, w⟩ := kv
    by_cases hk : k = g
    · simp [alookup, hk] at h
    · simp [alookup, hk] at h ⊢; exact ih h

theorem alookup_isSome_append {m m' : List (Int × Int)} {g : Int}
    (h : (alookup m g).isSome = true) : (alookup (m ++ m') g).isSome = true := by
  obtain ⟨v, hv⟩ := Option.isSome_iff_exists.mp h
  simp [alookup_append_some hv]

theorem alookup_single_ne {k v g : Int} (h : k ≠ g) : alookup [(k, v)] g = none := by
  simp [alookup, h]

theorem alookup_single_eq {k v : Int} : alookup [(k, v)] k = some v := by
  simp [alookup]

/- Arithmetic of the batch count. -/

theorem ceilDiv_zero {bs : Nat} (hb : 1 ≤ bs) : ceilDiv 0 bs = 0 := by
  unfold ceilDiv
  exact Nat.div_eq_of_lt (by omega)

theorem ceilDiv_pos_eq {n bs : Nat} (hn : 1 ≤ n) (hb : 1 ≤ bs) :
    ceilDiv n bs = (n - 1) / bs + 1 := by
  unfold ceilDiv
  have h1 : n + bs - 1 = (n - 1) + bs := by omega
  rw [h1, Nat.add_div_right _ (by omega)]

/-- For 1 ≤ bs, the batch loop of a nonempty window partition executes
one batch of the first bs tabs and recurses on the rest: the count
recurrence of the ceiling division. -/
theorem ceilDiv_step {n bs : Nat} (hn : 1 ≤ n) (hb : 1 ≤ bs) :
    ceilDiv n bs = ceilDiv (n - bs) bs + 1 := by
  rcases Nat.lt_or_ge (n - bs) 1 with hlt | hge
  · have hnb : n - bs = 0 := by omega
    rw [ceilDiv_pos_eq hn hb, hnb, ceilDiv_zero hb]
    have : n - 1 < bs := by omega
    rw [Nat.div_eq_of_lt this]
  · rw [ceilDiv_pos_eq hn hb, ceilDiv_pos_eq hge hb]
    have h1 : n - 1 = (n - bs - 1) + bs := by omega
    rw [h1, Nat.add_div_right _ (by omega)]

theorem ceilDiv_mul_ge {n bs : Nat} (hb : 1 ≤ bs) : n ≤ ceilDiv n bs * bs := by
  rcases Nat.eq_zero_or_pos n with h0 | hpos
  · simp [h0, ceilDiv_zero hb]
  · rw [ceilDiv_pos_eq hpos hb]
    have hdm := Nat.div_add_mod (n - 1) bs
    have hmod : (n - 1) % bs < bs := Nat.mod_lt _ (by omega)
    have hmul : ((n - 1) / bs + 1) * bs = bs * ((n - 1) / bs) + bs := by ring
    omega

/- The chunking function: for 1 ≤ bs and enough fuel it splits a list
into consecutive batches whose concatenation is the list, whose count is
the ceiling division, and whose every batch respects take/drop. -/

theorem chunkGo_flatten {a : Type} {bs : Nat} (hb : 1 ≤ bs) :
    ∀ (fuel : Nat) (xs : List a), xs.length ≤ fuel →
      (chunkGo bs fuel xs).flatten = xs := by
  intro fuel
  induction fuel with
  | zero =>
    intro xs hlen
    have : xs = [] := List.eq_nil_of_length_eq_zero (by omega)
    simp [this, chunkGo]
  | succ f ih =>
    intro xs hlen
    cases xs with
    | nil => simp [chunkGo]
    | cons x t =>
      have hdrop : ((x :: t).drop bs).length ≤ f := by
        simp [List.length_drop]
        simp at hlen
        omega
      simp only [chunkGo, List.flatten_cons, ih _ hdrop]
      exact List.take_append_drop bs (x :: t)

theorem chunkGo_length {a : Type} {bs : Nat} (hb : 1 ≤ bs) :
    ∀ (fuel : Nat) (xs : List a), xs.length ≤ fuel →
      (chunkGo bs fuel xs).length = ceilDiv xs.length bs := by
  intro fuel
  induction fuel with
  | zero =>
    intro xs hlen
    have : xs = [] := List.eq_nil_of_length_eq_zero (by omega)
    simp [this, chunkGo, ceilDiv_zero hb]
  | succ f ih =>
    intro xs hlen
    cases xs with
    | nil => simp [chunkGo, ceilDiv_zero hb]
    | cons x t =>
      have hdrop : ((x :: t).drop bs).length ≤ f := by
        simp [List.length_drop]
        simp at hlen
        omega
      simp only [chunkGo, List.length_cons, ih _ hdrop, List.length_drop]
      rw [ceilDiv_step (show 1 ≤ t.length + 1 by omega) hb]

theorem chunkList_flatten {a : Type} {bs : Nat} (hb : 1 ≤ bs) (l : List a) :
    (chunkList bs l).flatten = l :=
  chunkGo_flatten hb l.length l (Nat.le_refl _)

theorem chunkList_length {a : Type} {bs : Nat} (hb : 1 ≤ bs) (l : List a) :
    (chunkList bs l).length = ceilDiv l.length bs :=
  chunkGo_length hb l.length l (Nat.le_refl _)

/- The window-partition map: its buckets concatenate to a permutation of
the input, every pair sits in the bucket of its windowId, and the keys
are distinct. -/

theorem flattenParts_nil : flattenParts [] = [] := by
  simp [flattenParts]

theorem flattenParts_cons (p : Int × List (Nat × ExportedTab))
    (rest : List (Int × List (Nat × ExportedTab))) :
    flattenParts (p :: rest) = p.2 ++ flattenParts rest := by
  simp [flattenParts]

theorem flattenParts_insertTab (m : List (Int × List (Nat × ExportedTab)))
    (t : Nat × ExportedTab) :
    (flattenParts (insertTab m t)).Perm (flattenParts m ++ [t]) := by
  induction m with
  | nil => simp [insertTab, flattenParts]
  | cons p rest ih =>
    obtain ⟨w, ts⟩ := p
    by_cases hw : w = t.2.windowId
    · simp only [insertTab, if_pos hw, flattenParts_cons, List.append_assoc]
      exact List.Perm.append_left ts List.perm_append_comm
    · simp only [insertTab, if_neg hw, flattenParts_cons, List.append_assoc]
      exact List.Perm.append_left ts ih

theorem flattenParts_foldl (l : List (Nat × ExportedTab)) :
    ∀ m, (flattenParts (l.foldl insertTab m)).Perm (flattenParts m ++ l) := by
  induction l with
  | nil => intro m; simp
  | cons t l ih =>
    intro m
    have h1 := ih (insertTab m t)
    have h2 : (flattenParts (insertTab m t) ++ l).Perm ((flattenParts m ++ [t]) ++ l) :=
      List.Perm.append_right l (flattenParts_insertTab m t)
    simp only [List.foldl_cons]
    refine (h1.trans h2).trans ?_
    simp [List.append_assoc]

theorem flattenParts_tabsByWindow (l : List (Nat × ExportedTab)) :
    (flattenParts (tabsByWindow l)).Perm l := by
  have h := flattenParts_foldl l []
  simpa [flattenParts] using h

theorem partGood_insertTab {m : List (Int × List (Nat × ExportedTab))}
    {t : Nat × ExportedTab} (h : partGood m) : partGood (insertTab m t) := by
  induction m with
  | nil =>
    intro p hp x hx
    simp [insertTab] at hp
    subst hp
    simp at hx
    subst hx
    rfl
  | cons q rest ih =>
    obtain ⟨w, ts⟩ := q
    have hrest : partGood rest := fun p hp x hx => h p (List.mem_cons_of_mem _ hp) x hx
    have hq : ∀ x ∈ ts, x.2.windowId = w := fun x hx => h (w, ts) (List.mem_cons_self _ _) x hx
    by_cases hw : w = t.2.windowId
    · intro p hp x hx
      simp only [insertTab, if_pos hw] at hp
      rcases List.mem_cons.mp hp with hp1 | hp2
      · subst hp1
        rcases List.mem_append.mp hx with hx1 | hx2
        · exact hq x hx1
        · simp at hx2
          subst hx2
          exact hw.symm
      · exact hrest p hp2 x hx
    · intro p hp x hx
      simp only [insertTab, if_neg hw] at hp
      rcases List.mem_cons.mp hp with hp1 | hp2
      · subst hp1
        exact hq x hx
      · exact ih hrest p hp2 x hx

theorem partGood_tabsByWindow (l : List (Nat × ExportedTab)) :
    partGood (tabsByWindow l) := by
  have hgen : ∀ m, partGood m → partGood (l.foldl insertTab m) := by
    induction l with
    | nil => intro m hm; exact hm
    | cons t l ih =>
      intro m hm
      exact ih _ (partGood_insertTab hm)
  refine hgen [] ?_
  intro p hp
  simp at hp

theorem mem_keys_insertTab {m : List (Int × List (Nat × ExportedTab))}
    {t : Nat × ExportedTab} {k : Int} :
    k ∈ keysOf (insertTab m t) ↔ k ∈ keysOf m ∨ k = t.2.windowId := by
  induction m with
  | nil => simp [insertTab, keysOf]
  | cons q rest ih =>
    obtain ⟨w, ts⟩ := q
    by_cases hw : w = t.2.windowId
    · simp only [insertTab, if_pos hw, keysOf, List.map_cons, List.mem_cons]
      constructor
      · intro h
        rcases h with h | h
        · exact Or.inl (Or.inl h)
        · exact Or.inl (Or.inr h)
      · intro h
        rcases h with (h | h) | h
        · exact Or.inl h
        · exact Or.inr h
        · exact Or.inl (hw ▸ h)
    · simp only [insertTab, if_neg hw, keysOf, List.map_cons, List.mem_cons] at ih ⊢
      rw [ih]
      tauto

theorem nodup_keys_insertTab {m : List (Int × List (Nat × ExportedTab))}
    {t : Nat × ExportedTab} (h : (keysOf m).Nodup) : (keysOf (insertTab m t)).Nodup := by
  induction m with
  | nil => simp [insertTab, keysOf]
  | cons q rest ih =>
    obtain ⟨w, ts⟩ := q
    simp only [keysOf, List.map_cons, List.nodup_cons] at h
    by_cases hw : w = t.2.windowId
    · simp only [insertTab, if_pos hw, keysOf, List.map_cons, List.nodup_cons]
      exact h
    · simp only [insertTab, if_neg hw, keysOf, List.map_cons, List.nodup_cons]
      refine ⟨?_, ih h.2⟩
      intro hmem
      rcases mem_keys_insertTab.mp hmem with hmem1 | hmem2
      · exact h.1 hmem1
      · exact hw hmem2

theorem nodup_keys_tabsByWindow (l : List (Nat × ExportedTab)) :
    (keysOf (tabsByWindow l)).Nodup := by
  have hgen : ∀ m, (keysOf m).Nodup → (keysOf (l.foldl insertTab m)).Nodup := by
    induction l with
    | nil => intro m hm; exact hm
    | cons t l ih =>
      intro m hm
      exact ih _ (nodup_keys_insertTab hm)
  refine hgen [] ?_
  simp [keysOf]

/- Counting the host calls of one per-tab task and of one
group-creation sequence. -/

theorem countCreate_tabEmits (o : Oracle) (map : List (Int × Int)) (w : Int) (tid : Nat)
    (pt : Nat × ExportedTab) : countCreate (tabEmits o map w tid pt) = 1 := by
  unfold countCreate tabEmits
  cases h : alookup map pt.2.groupId <;>
    split_ifs <;>
      simp_all [List.countP_cons, List.countP_append, isCreateTab]

theorem countSleep_tabEmits (o : Oracle) (map : List (Int × Int)) (w : Int) (tid : Nat)
    (pt : Nat × ExportedTab) : countSleep (tabEmits o map w tid pt) = 0 := by
  unfold countSleep tabEmits
  cases h : alookup map pt.2.groupId <;>
    split_ifs <;>
      simp_all [List.countP_cons, List.countP_append, isSleep]

theorem countTemp_tabEmits (g : Int) (o : Oracle) (map : List (Int × Int)) (w : Int)
    (tid : Nat) (pt : Nat × ExportedTab) : countTemp g (tabEmits o map w tid pt) = 0 := by
  unfold countTemp tabEmits
  cases h : alookup map pt.2.groupId <;>
    split_ifs <;>
      simp_all [List.countP_cons, List.countP_append, isTempFor]

theorem projIdx_tabEmits (w' : Int) (o : Oracle) (map : List (Int × Int)) (w : Int)
    (tid : Nat) (pt : Nat × ExportedTab) :
    projIdx w' (tabEmits o map w tid pt) =
      if pt.2.windowId = w' then [pt.2.index] else [] := by
  unfold projIdx tabEmits
  cases h : alookup map pt.2.groupId <;>
    split_ifs <;>
      simp_all [List.filterMap_cons, List.filterMap_append]

theorem mem_assign_tabEmits {g : Int} {p t : Nat} {n : Int} {o : Oracle}
    {map : List (Int × Int)} {w : Int} {tid : Nat} {pt : Nat × ExportedTab}
    (h : Event.assignGroup g p t n ∈ tabEmits o map w tid pt) :
    alookup map g = some n := by
  unfold tabEmits at h
  by_cases hc : o.createTabOk pt.1
  · simp only [if_pos hc, List.mem_cons, List.mem_append] at h
    rcases h with h | h | h
    · exact absurd h (by simp)
    · by_cases hg : pt.2.groupId = -1
      · simp [hg] at h
      · simp only [if_neg hg] at h
        cases hm : alookup map pt.2.groupId with
        | none => rw [hm] at h; simp at h
        | some ngid =>
          rw [hm] at h
          by_cases ha : o.tabGroupsAvail
          · simp only [if_pos ha, List.mem_singleton, Event.assignGroup.injEq] at h
            obtain ⟨h1, h2, h3, h4⟩ := h
            subst h1
            subst h4
            exact hm
          · simp [ha] at h
    · split_ifs at h <;> simp_all
  · simp [hc] at h

theorem countCreate_groupEmits (o : Oracle) (gid w : Int) (tid : Nat) (ngid : Int) :
    countCreate (groupEmits o gid w tid ngid) = 0 := by
  unfold countCreate groupEmits
  split_ifs <;> simp_all [List.countP_cons, isCreateTab]

theorem countSleep_groupEmits (o : Oracle) (gid w : Int) (tid : Nat) (ngid : Int) :
    countSleep (groupEmits o gid w tid ngid) = 0 := by
  unfold countSleep groupEmits
  split_ifs <;> simp_all [List.countP_cons, isSleep]

theorem countTemp_groupEmits (g : Int) (o : Oracle) (gid w : Int) (tid : Nat) (ngid : Int) :
    countTemp g (groupEmits o gid w tid ngid) = if gid = g then 1 else 0 := by
  unfold countTemp groupEmits
  split_ifs <;> simp_all [List.countP_cons, isTempFor]

theorem projIdx_groupEmits (w' : Int) (o : Oracle) (gid w : Int) (tid : Nat) (ngid : Int) :
    projIdx w' (groupEmits o gid w tid ngid) = [] := by
  unfold projIdx groupEmits
  split_ifs <;> simp_all [List.filterMap_cons]

theorem mem_assign_groupEmits {g : Int} {p t : Nat} {n : Int} {o : Oracle}
    {gid w : Int} {tid : Nat} {ngid : Int} :
    Event.assignGroup g p t n ∉ groupEmits o gid w tid ngid := by
  unfold groupEmits
  split_ifs <;> simp

/- Projections of one per-tab task and one group-creation step on
the import state. -/

theorem doTab_groupIdMap (o : Oracle) (total : Nat) (w : Int) (s : St)
    (pt : Nat × ExportedTab) : (doTab o total w s pt).groupIdMap = s.groupIdMap := rfl

theorem doTab_importedCount (o : Oracle) (total : Nat) (w : Int) (s : St)
    (pt : Nat × ExportedTab) :
    (doTab o total w s pt).importedCount =
      s.importedCount + (if tabOk o pt then 1 else 0) := rfl

theorem doTab_events (o : Oracle) (total : Nat) (w : Int) (s : St)
    (pt : Nat × ExportedTab) :
    (doTab o total w s pt).events =
      s.events ++ tabEmits o s.groupIdMap w s.nextTabId pt := rfl

theorem doGroupCreate_importedCount (o : Oracle) (g : ExportedGroup) (w : Int) (s : St) :
    (doGroupCreate o g w s).importedCount = s.importedCount := rfl

theorem doGroupCreate_progress (o : Oracle) (g : ExportedGroup) (w : Int) (s : St) :
    (doGroupCreate o g w s).progress = s.progress := rfl

theorem doGroupCreate_events (o : Oracle) (g : ExportedGroup) (w : Int) (s : St) :
    (doGroupCreate o g w s).events =
      s.events ++ groupEmits o g.id w s.nextTabId (Int.ofNat s.nextGroupId) := rfl

/- The counters distribute over trace concatenation. -/

theorem countCreate_append (a b : List Event) :
    countCreate (a ++ b) = countCreate a + countCreate b :=
  List.countP_append _ a b

theorem countSleep_append (a b : List Event) :
    countSleep (a ++ b) = countSleep a + countSleep b :=
  List.countP_append _ a b

theorem countTemp_append (g : Int) (a b : List Event) :
    countTemp g (a ++ b) = countTemp g a + countTemp g b :=
  List.countP_append _ a b

theorem projIdx_append (w : Int) (a b : List Event) :
    projIdx w (a ++ b) = projIdx w a ++ projIdx w b :=
  List.filterMap_append a b _

/- Effect of one batch's task fold on the import state. -/

theorem foldTab_groupIdMap (o : Oracle) (total : Nat) (w : Int)
    (batch : List (Nat × ExportedTab)) :
    ∀ s : St, (batch.foldl (doTab o total w) s).groupIdMap = s.groupIdMap := by
  induction batch with
  | nil => intro s; rfl
  | cons pt rest ih =>
    intro s
    simp only [List.foldl_cons, ih, doTab_groupIdMap]

theorem foldTab_importedCount (o : Oracle) (total : Nat) (w : Int)
    (batch : List (Nat × ExportedTab)) :
    ∀ s : St, (batch.foldl (doTab o total w) s).importedCount =
      s.importedCount + batch.countP (tabOk o) := by
  induction batch with
  | nil => intro s; simp
  | cons pt rest ih =>
    intro s
    simp only [List.foldl_cons, ih, doTab_importedCount, List.countP_cons]
    omega

theorem foldTab_countCreate (o : Oracle) (total : Nat) (w : Int)
    (batch : List (Nat × ExportedTab)) :
    ∀ s : St, countCreate ((batch.foldl (doTab o total w) s).events) =
      countCreate s.events + batch.length := by
  induction batch with
  | nil => intro s; simp
  | cons pt rest ih =>
    intro s
    rw [List.foldl_cons, ih, doTab_events, countCreate_append, countCreate_tabEmits]
    simp only [List.length_cons]
    omega

theorem foldTab_countSleep (o : Oracle) (total : Nat) (w : Int)
    (batch : List (Nat × ExportedTab)) :
    ∀ s : St, countSleep ((batch.foldl (doTab o total w) s).events) =
      countSleep s.events := by
  induction batch with
  | nil => intro s; rfl
  | cons pt rest ih =>
    intro s
    rw [List.foldl_cons, ih, doTab_events, countSleep_append, countSleep_tabEmits]
    omega

theorem foldTab_countTemp (g : Int) (o : Oracle) (total : Nat) (w : Int)
    (batch : List (Nat × ExportedTab)) :
    ∀ s : St, countTemp g ((batch.foldl (doTab o total w) s).events) =
      countTemp g s.events := by
  induction batch with
  | nil => intro s; rfl
  | cons pt rest ih =>
    intro s
    rw [List.foldl_cons, ih, doTab_events, countTemp_append, countTemp_tabEmits]
    omega

theorem foldTab_projIdx (w' : Int) (o : Oracle) (total : Nat) (w : Int)
    (batch : List (Nat × ExportedTab)) :
    ∀ s : St, projIdx w' ((batch.foldl (doTab o total w) s).events) =
      projIdx w' s.events ++
        (batch.filter (fun pt => decide (pt.2.windowId = w'))).map (fun pt => pt.2.index) := by
  induction batch with
  | nil => intro s; simp
  | cons pt rest ih =>
    intro s
    rw [List.foldl_cons, ih, doTab_events, projIdx_append, projIdx_tabEmits]
    by_cases hw : pt.2.windowId = w' <;>
      simp [hw, List.filter_cons, List.append_assoc]

/- Effect of the batch loop (a fold of settled batches) on the import
state. -/

theorem doBatch_groupIdMap (o : Oracle) (total : Nat) (w : Int) (s : St)
    (batch : List (Nat × ExportedTab)) :
    (doBatch o total w s batch).groupIdMap = s.groupIdMap := by
  unfold doBatch
  simp [foldTab_groupIdMap]

theorem doBatch_importedCount (o : Oracle) (total : Nat) (w : Int) (s : St)
    (batch : List (Nat × ExportedTab)) :
    (doBatch o total w s batch).importedCount =
      s.importedCount + batch.countP (tabOk o) := by
  unfold doBatch
  simp [foldTab_importedCount]

theorem doBatch_countCreate (o : Oracle) (total : Nat) (w : Int) (s : St)
    (batch : List (Nat × ExportedTab)) :
    countCreate ((doBatch o total w s batch).events) =
      countCreate s.events + batch.length := by
  unfold doBatch
  simp only [countCreate_append, foldTab_countCreate]
  simp [countCreate, List.countP_cons, isCreateTab]

theorem doBatch_countSleep (o : Oracle) (total : Nat) (w : Int) (s : St)
    (batch : List (Nat × ExportedTab)) :
    countSleep ((doBatch o total w s batch).events) = countSleep s.events + 1 := by
  unfold doBatch
  simp only [countSleep_append, foldTab_countSleep]
  simp [countSleep, List.countP_cons, isSleep]

theorem doBatch_countTemp (g : Int) (o : Oracle) (total : Nat) (w : Int) (s : St)
    (batch : List (Nat × ExportedTab)) :
    countTemp g ((doBatch o total w s batch).events) = countTemp g s.events := by
  unfold doBatch
  simp only [countTemp_append, foldTab_countTemp]
  simp [countTemp, List.countP_cons, isTempFor]

theorem doBatch_projIdx (w' : Int) (o : Oracle) (total : Nat) (w : Int) (s : St)
    (batch : List (Nat × ExportedTab)) :
    projIdx w' ((doBatch o total w s batch).events) =
      projIdx w' s.events ++
        (batch.filter (fun pt => decide (pt.2.windowId = w'))).map (fun pt => pt.2.index) := by
  unfold doBatch
  simp only [projIdx_append, foldTab_projIdx]
  simp [projIdx, List.filterMap_cons]

theorem foldBatch_groupIdMap (o : Oracle) (total : Nat) (w : Int)
    (L : List (List (Nat × ExportedTab))) :
    ∀ s : St, ((L.foldl (doBatch o total w) s).groupIdMap) = s.groupIdMap := by
  induction L with
  | nil => intro s; rfl
  | cons b rest ih =>
    intro s
    rw [List.foldl_cons, ih, doBatch_groupIdMap]

theorem foldBatch_importedCount (o : Oracle) (total : Nat) (w : Int)
    (L : List (List (Nat × ExportedTab))) :
    ∀ s : St, ((L.foldl (doBatch o total w) s).importedCount) =
      s.importedCount + (L.map (fun b => b.countP (tabOk o))).sum := by
  induction L with
  | nil => intro s; simp
  | cons b rest ih =>
    intro s
    rw [List.foldl_cons, ih, doBatch_importedCount]
    simp [List.sum_cons]
    omega

theorem foldBatch_countCreate (o : Oracle) (total : Nat) (w : Int)
    (L : List (List (Nat × ExportedTab))) :
    ∀ s : St, countCreate ((L.foldl (doBatch o total w) s).events) =
      countCreate s.events + (L.map List.length).sum := by
  induction L with
  | nil => intro s; simp
  | cons b rest ih =>
    intro s
    rw [List.foldl_cons, ih, doBatch_countCreate]
    simp [List.sum_cons]
    omega

theorem foldBatch_countSleep (o : Oracle) (total : Nat) (w : Int)
    (L : List (List (Nat × ExportedTab))) :
    ∀ s : St, countSleep ((L.foldl (doBatch o total w) s).events) =
      countSleep s.events + L.length := by
  induction L with
  | nil => intro s; simp
  | cons b rest ih =>
    intro s
    rw [List.foldl_cons, ih, doBatch_countSleep]
    simp [List.length_cons]
    omega

theorem foldBatch_countTemp (g : Int) (o : Oracle) (total : Nat) (w : Int)
    (L : List (List (Nat × ExportedTab))) :
    ∀ s : St, countTemp g ((L.foldl (doBatch o total w) s).events) =
      countTemp g s.events := by
  induction L with
  | nil => intro s; rfl
  | cons b rest ih =>
    intro s
    rw [List.foldl_cons, ih, doBatch_countTemp]

theorem foldBatch_projIdx (w' : Int) (o : Oracle) (total : Nat) (w : Int)
    (L : List (List (Nat × ExportedTab))) :
    ∀ s : St, projIdx w' ((L.foldl (doBatch o total w) s).events) =
      projIdx w' s.events ++
        (L.map (fun b =>
          (b.filter (fun pt => decide (pt.2.windowId = w'))).map (fun pt => pt.2.index))).flatten := by
  induction L with
  | nil => intro s; simp
  | cons b rest ih =>
    intro s
    rw [List.foldl_cons, ih, doBatch_projIdx]
    simp [List.append_assoc]

/- Effect of the whole batch loop of a window partition. -/

theorem doBatches_groupIdMap (o : Oracle) (bs total : Nat) (w : Int)
    (sorted : List (Nat × ExportedTab)) (s : St) :
    (doBatches o bs total w sorted s).groupIdMap = s.groupIdMap :=
  foldBatch_groupIdMap o total w _ s

theorem doBatches_importedCount (o : Oracle) {bs : Nat} (hb : 1 ≤ bs) (total : Nat)
    (w : Int) (sorted : List (Nat × ExportedTab)) (s : St) :
    (doBatches o bs total w sorted s).importedCount =
      s.importedCount + sorted.countP (tabOk o) := by
  unfold doBatches
  rw [foldBatch_importedCount]
  have h1 : ((chunkList bs sorted).map (fun b => b.countP (tabOk o))).sum =
      ((chunkList bs sorted).flatten).countP (tabOk o) :=
    (List.countP_flatten _ _).symm
  rw [h1, chunkList_flatten hb]

theorem doBatches_countCreate (o : Oracle) {bs : Nat} (hb : 1 ≤ bs) (total : Nat)
    (w : Int) (sorted : List (Nat × ExportedTab)) (s : St) :
    countCreate ((doBatches o bs total w sorted s).events) =
      countCreate s.events + sorted.length := by
  unfold doBatches
  rw [foldBatch_countCreate]
  have h1 : ((chunkList bs sorted).map List.length).sum =
      ((chunkList bs sorted).flatten).length :=
    (List.length_flatten _).symm
  rw [h1, chunkList_flatten hb]

theorem doBatches_countSleep (o : Oracle) {bs : Nat} (hb : 1 ≤ bs) (total : Nat)
    (w : Int) (sorted : List (Nat × ExportedTab)) (s : St) :
    countSleep ((doBatches o bs total w sorted s).events) =
      countSleep s.events + ceilDiv sorted.length bs := by
  unfold doBatches
  rw [foldBatch_countSleep, chunkList_length hb]

theorem doBatches_countTemp (g : Int) (o : Oracle) (bs total : Nat) (w : Int)
    (sorted : List (Nat × ExportedTab)) (s : St) :
    countTemp g ((doBatches o bs total w sorted s).events) = countTemp g s.events :=
  foldBatch_countTemp g o total w _ s

theorem doBatches_projIdx (w' : Int) (o : Oracle) {bs : Nat} (hb : 1 ≤ bs) (total : Nat)
    (w : Int) (sorted : List (Nat × ExportedTab)) (s : St) :
    projIdx w' ((doBatches o bs total w sorted s).events) =
      projIdx w' s.events ++
        (sorted.filter (fun pt => decide (pt.2.windowId = w'))).map (fun pt => pt.2.index) := by
  unfold doBatches
  rw [foldBatch_projIdx]
  congr 1
  have h1 : (chunkList bs sorted).map (fun b =>
      (b.filter (fun pt => decide (pt.2.windowId = w'))).map (fun pt => pt.2.index)) =
      ((chunkList bs sorted).map (fun b =>
        b.filter (fun pt => decide (pt.2.windowId = w')))).map
          (List.map (fun pt => pt.2.index)) := by
    rw [List.map_map]
    rfl
  rw [h1, ← List.map_flatten, ← List.filter_flatten, chunkList_flatten hb]

/- Effect of the group-recreation phase of a window on the import
state: it does not touch the progress counters nor emit tab creations,
sleeps or replays, and it only ever appends to the remap table. -/

theorem doGroupCreate_countCreate (o : Oracle) (g : ExportedGroup) (w : Int) (s : St) :
    countCreate ((doGroupCreate o g w s).events) = countCreate s.events := by
  rw [doGroupCreate_events, countCreate_append, countCreate_groupEmits]
  omega

theorem doGroupCreate_countSleep (o : Oracle) (g : ExportedGroup) (w : Int) (s : St) :
    countSleep ((doGroupCreate o g w s).events) = countSleep s.events := by
  rw [doGroupCreate_events, countSleep_append, countSleep_groupEmits]
  omega

theorem doGroupCreate_countTemp (gq : Int) (o : Oracle) (g : ExportedGroup) (w : Int)
    (s : St) :
    countTemp gq ((doGroupCreate o g w s).events) =
      countTemp gq s.events + (if g.id = gq then 1 else 0) := by
  rw [doGroupCreate_events, countTemp_append, countTemp_groupEmits]

theorem doGroupCreate_projIdx (w' : Int) (o : Oracle) (g : ExportedGroup) (w : Int)
    (s : St) :
    projIdx w' ((doGroupCreate o g w s).events) = projIdx w' s.events := by
  rw [doGroupCreate_events, projIdx_append, projIdx_groupEmits]
  simp

theorem doGroupCreate_alookup_some {x v : Int} (o : Oracle) (g : ExportedGroup) (w : Int)
    (s : St) (h : alookup s.groupIdMap x = some v) :
    alookup (doGroupCreate o g w s).groupIdMap x = some v := by
  unfold doGroupCreate
  exact alookup_append_some h

theorem doGroupCreate_self (o : Oracle) (g : ExportedGroup) (w : Int) (s : St)
    (hg : groupCreateOk o g.id = true) :
    (alookup (doGroupCreate o g w s).groupIdMap g.id).isSome = true := by
  unfold doGroupCreate
  simp only [hg, if_true]
  cases hm : alookup s.groupIdMap g.id with
  | some v => simp [alookup_append_some hm]
  | none => rw [alookup_append_none hm, alookup_single_eq]; rfl

theorem doGroups_eq_fold (o : Oracle) (groups : List ExportedGroup)
    (wtabs : List (Nat × ExportedTab)) (w : Int) (s : St) :
    doGroups o groups wtabs w s =
      if o.tabGroupsAvail then (windowGroups groups wtabs).foldl (gstep o w) s else s := rfl

theorem foldGroups_importedCount (o : Oracle) (w : Int) (L : List ExportedGroup) :
    ∀ s : St, (L.foldl (gstep o w) s).importedCount = s.importedCount := by
  induction L with
  | nil => intro s; rfl
  | cons g rest ih =>
    intro s
    rw [List.foldl_cons, ih]
    unfold gstep
    split_ifs <;> simp [doGroupCreate_importedCount]

theorem foldGroups_progress (o : Oracle) (w : Int) (L : List ExportedGroup) :
    ∀ s : St, (L.foldl (gstep o w) s).progress = s.progress := by
  induction L with
  | nil => intro s; rfl
  | cons g rest ih =>
    intro s
    rw [List.foldl_cons, ih]
    unfold gstep
    split_ifs <;> simp [doGroupCreate_progress]

theorem foldGroups_countCreate (o : Oracle) (w : Int) (L : List ExportedGroup) :
    ∀ s : St, countCreate ((L.foldl (gstep o w) s).events) = countCreate s.events := by
  induction L with
  | nil => intro s; rfl
  | cons g rest ih =>
    intro s
    rw [List.foldl_cons, ih]
    unfold gstep
    split_ifs <;> simp [doGroupCreate_countCreate]

theorem foldGroups_countSleep (o : Oracle) (w : Int) (L : List ExportedGroup) :
    ∀ s : St, countSleep ((L.foldl (gstep o w) s).events) = countSleep s.events := by
  induction L with
  | nil => intro s; rfl
  | cons g rest ih =>
    intro s
    rw [List.foldl_cons, ih]
    unfold gstep
    split_ifs <;> simp [doGroupCreate_countSleep]

theorem foldGroups_projIdx (w' : Int) (o : Oracle) (w : Int) (L : List ExportedGroup) :
    ∀ s : St, projIdx w' ((L.foldl (gstep o w) s).events) = projIdx w' s.events := by
  induction L with
  | nil => intro s; rfl
  | cons g rest ih =>
    intro s
    rw [List.foldl_cons, ih]
    unfold gstep
    split_ifs <;> simp [doGroupCreate_projIdx]

theorem foldGroups_alookup_some {x v : Int} (o : Oracle) (w : Int) (L : List ExportedGroup) :
    ∀ s : St, alookup s.groupIdMap x = some v →
      alookup (L.foldl (gstep o w) s).groupIdMap x = some v := by
  induction L with
  | nil => intro s h; exact h
  | cons g rest ih =>
    intro s h
    rw [List.foldl_cons]
    refine ih _ ?_
    unfold gstep
    split_ifs with hs
    · exact h
    · exact doGroupCreate_alookup_some o g w s h

theorem foldGroups_isSome (o : Oracle) (w : Int) (L : List ExportedGroup) :
    ∀ (s : St) (x : Int), (alookup s.groupIdMap x).isSome = true →
      (alookup (L.foldl (gstep o w) s).groupIdMap x).isSome = true := by
  intro s x h
  obtain ⟨v, hv⟩ := Option.isSome_iff_exists.mp h
  have := foldGroups_alookup_some (x := x) (v := v) o w L s hv
  simp [this]

theorem foldGroups_mem (o : Oracle) (w : Int) (L : List ExportedGroup)
    {g : ExportedGroup} (hg : groupCreateOk o g.id = true) :
    ∀ s : St, g ∈ L → (alookup (L.foldl (gstep o w) s).groupIdMap g.id).isSome = true := by
  induction L with
  | nil => intro s h; simp at h
  | cons q rest ih =>
    intro s hmem
    rw [List.foldl_cons]
    rcases List.mem_cons.mp hmem with h1 | h2
    · subst h1
      refine foldGroups_isSome o w rest _ g.id ?_
      unfold gstep
      split_ifs with hs
      · exact hs
      · exact doGroupCreate_self o g w s hg
    · exact ih _ h2

theorem doGroups_importedCount (o : Oracle) (groups : List ExportedGroup)
    (wtabs : List (Nat × ExportedTab)) (w : Int) (s : St) :
    (doGroups o groups wtabs w s).importedCount = s.importedCount := by
  rw [doGroups_eq_fold]
  split_ifs <;> simp [foldGroups_importedCount]

theorem doGroups_progress (o : Oracle) (groups : List ExportedGroup)
    (wtabs : List (Nat × ExportedTab)) (w : Int) (s : St) :
    (doGroups o groups wtabs w s).progress = s.progress := by
  rw [doGroups_eq_fold]
  split_ifs <;> simp [foldGroups_progress]

theorem doGroups_countCreate (o : Oracle) (groups : List ExportedGroup)
    (wtabs : List (Nat × ExportedTab)) (w : Int) (s : St) :
    countCreate ((doGroups o groups wtabs w s).events) = countCreate s.events := by
  rw [doGroups_eq_fold]
  split_ifs <;> simp [foldGroups_countCreate]

theorem doGroups_countSleep (o : Oracle) (groups : List ExportedGroup)
    (wtabs : List (Nat × ExportedTab)) (w : Int) (s : St) :
    countSleep ((doGroups o groups wtabs w s).events) = countSleep s.events := by
  rw [doGroups_eq_fold]
  split_ifs <;> simp [foldGroups_countSleep]

theorem doGroups_projIdx (w' : Int) (o : Oracle) (groups : List ExportedGroup)
    (wtabs : List (Nat × ExportedTab)) (w : Int) (s : St) :
    projIdx w' ((doGroups o groups wtabs w s).events) = projIdx w' s.events := by
  rw [doGroups_eq_fold]
  split_ifs <;> simp [foldGroups_projIdx]

theorem doGroups_alookup_some {x v : Int} (o : Oracle) (groups : List ExportedGroup)
    (wtabs : List (Nat × ExportedTab)) (w : Int) (s : St)
    (h : alookup s.groupIdMap x = some v) :
    alookup (doGroups o groups wtabs w s).groupIdMap x = some v := by
  rw [doGroups_eq_fold]
  split_ifs with ha
  · exact foldGroups_alookup_some o w _ s h
  · exact h

theorem doGroups_mem (o : Oracle) (groups : List ExportedGroup)
    (wtabs : List (Nat × ExportedTab)) (w : Int) (s : St) {g : ExportedGroup}
    (ha : o.tabGroupsAvail = true) (hg : groupCreateOk o g.id = true)
    (hmem : g ∈ windowGroups groups wtabs) :
    (alookup (doGroups o groups wtabs w s).groupIdMap g.id).isSome = true := by
  rw [doGroups_eq_fold, if_pos ha]
  exact foldGroups_mem o w _ hg s hmem

/- The sort of a window partition is a permutation sorted by index. -/

theorem sortByIndex_perm (l : List (Nat × ExportedTab)) : (sortByIndex l).Perm l :=
  List.perm_insertionSort _ l

theorem sortByIndex_length (l : List (Nat × ExportedTab)) :
    (sortByIndex l).length = l.length :=
  (sortByIndex_perm l).length_eq

theorem sortByIndex_countP (p : Nat × ExportedTab → Bool) (l : List (Nat × ExportedTab)) :
    (sortByIndex l).countP p = l.countP p :=
  (sortByIndex_perm l).countP_eq p

theorem sortByIndex_sorted (l : List (Nat × ExportedTab)) :
    (sortByIndex l).Pairwise (fun x y => x.2.index ≤ y.2.index) := by
  haveI ht : IsTotal (Nat × ExportedTab) (fun x y => x.2.index ≤ y.2.index) :=
    ⟨fun a b => Int.le_total a.2.index b.2.index⟩
  haveI htr : IsTrans (Nat × ExportedTab) (fun x y => x.2.index ≤ y.2.index) :=
    ⟨fun a b c hab hbc => Int.le_trans hab hbc⟩
  exact List.sorted_insertionSort _ l

/- The two target-window host reads emit no replay creations, sleeps,
group sequences or assignments. -/

theorem countCreate_marker1 : countCreate [Event.getCurrentWindow] = 0 := rfl

theorem countCreate_marker2 (wid : Int) : countCreate [Event.createWindow wid] = 0 := rfl

theorem countSleep_marker1 : countSleep [Event.getCurrentWindow] = 0 := rfl

theorem countSleep_marker2 (wid : Int) : countSleep [Event.createWindow wid] = 0 := rfl

theorem countTemp_marker1 (g : Int) : countTemp g [Event.getCurrentWindow] = 0 := rfl

theorem countTemp_marker2 (g : Int) (wid : Int) :
    countTemp g [Event.createWindow wid] = 0 := rfl

theorem projIdx_marker1 (w : Int) : projIdx w [Event.getCurrentWindow] = [] := rfl

theorem projIdx_marker2 (w : Int) (wid : Int) :
    projIdx w [Event.createWindow wid] = [] := rfl

/- Effect of one whole window partition when the target-window host
calls succeed. -/

theorem doWindow_ok (o : Oracle) {bs : Nat} (hb : 1 ≤ bs) (total : Nat)
    (groups : List ExportedGroup) (isFirst : Bool) (s : St)
    (p : Int × List (Nat × ExportedTab))
    (hcur : o.currentWindowOk = true) (hcw : ∀ k, o.createWindowOk k = true) :
    ∃ s', doWindow o bs total groups isFirst s p = Except.ok s' ∧
      s'.importedCount = s.importedCount + p.2.countP (tabOk o) ∧
      countCreate s'.events = countCreate s.events + p.2.length ∧
      countSleep s'.events = countSleep s.events + ceilDiv p.2.length bs ∧
      (∀ w', projIdx w' s'.events = projIdx w' s.events ++
        ((sortByIndex p.2).filter (fun pt => decide (pt.2.windowId = w'))).map
          (fun pt => pt.2.index)) := by
  unfold doWindow
  cases isFirst with
  | true =>
    simp only [if_true, hcur]
    refine ⟨_, rfl, ?_, ?_, ?_, ?_⟩
    · rw [doBatches_importedCount o hb, doGroups_importedCount,
        sortByIndex_countP]
    · rw [doBatches_countCreate o hb, doGroups_countCreate, countCreate_append,
        countCreate_marker1, sortByIndex_length]
      omega
    · rw [doBatches_countSleep o hb, doGroups_countSleep, countSleep_append,
        countSleep_marker1, sortByIndex_length]
      omega
    · intro w'
      rw [doBatches_projIdx w' o hb, doGroups_projIdx, projIdx_append, projIdx_marker1]
      simp
  | false =>
    simp only [Bool.false_eq_true, if_false, hcw s.winOrd]
    refine ⟨_, rfl, ?_, ?_, ?_, ?_⟩
    · rw [doBatches_importedCount o hb, doGroups_importedCount,
        sortByIndex_countP]
    · rw [doBatches_countCreate o hb, doGroups_countCreate, countCreate_append,
        countCreate_marker2, sortByIndex_length]
      omega
    · rw [doBatches_countSleep o hb, doGroups_countSleep, countSleep_append,
        countSleep_marker2, sortByIndex_length]
      omega
    · intro w'
      rw [doBatches_projIdx w' o hb, doGroups_projIdx, projIdx_append, projIdx_marker2]
      simp

/- Effect of the whole window loop when the target-window host calls
succeed: every partition is processed and the counters add up. -/

theorem processWindows_ok (o : Oracle) {bs : Nat} (hb : 1 ≤ bs) (total : Nat)
    (groups : List ExportedGroup) (fk : Option Int)
    (hcur : o.currentWindowOk = true) (hcw : ∀ k, o.createWindowOk k = true) :
    ∀ (parts : List (Int × List (Nat × ExportedTab))) (s : St),
      ∃ s', processWindows o bs total groups fk parts s = Except.ok s' ∧
        s'.importedCount =
          s.importedCount + (parts.map (fun p => p.2.countP (tabOk o))).sum ∧
        countCreate s'.events =
          countCreate s.events + (parts.map (fun p => p.2.length)).sum ∧
        countSleep s'.events =
          countSleep s.events + (parts.map (fun p => ceilDiv p.2.length bs)).sum ∧
        ∀ w', projIdx w' s'.events = projIdx w' s.events ++
          (parts.map (fun p =>
            ((sortByIndex p.2).filter (fun pt => decide (pt.2.windowId = w'))).map
              (fun pt => pt.2.index))).flatten := by
  intro parts
  induction parts with
  | nil =>
    intro s
    exact ⟨s, rfl, by simp, by simp, by simp, by simp⟩
  | cons p rest ih =>
    intro s
    obtain ⟨s1, hs1, hic1, hcc1, hcs1, hpj1⟩ :=
      doWindow_ok o hb total groups (decide (fk = some p.1)) s p hcur hcw
    obtain ⟨s2, hs2, hic2, hcc2, hcs2, hpj2⟩ := ih s1
    refine ⟨s2, ?_, ?_, ?_, ?_, ?_⟩
    · unfold processWindows
      rw [hs1]
      exact hs2
    · rw [hic2, hic1]
      simp [List.sum_cons]
      omega
    · rw [hcc2, hcc1]
      simp [List.sum_cons]
      omega
    · rw [hcs2, hcs1]
      simp [List.sum_cons]
      omega
    · intro w'
      rw [hpj2 w', hpj1 w']
      simp [List.append_assoc]

/- The assignment invariant: every group assignment uses the mapping
the remap table holds, at every point of the import. -/

theorem doGroupCreate_groupIdMap (o : Oracle) (g : ExportedGroup) (w : Int) (s : St) :
    (doGroupCreate o g w s).groupIdMap =
      s.groupIdMap ++
        (if groupCreateOk o g.id then [(g.id, Int.ofNat s.nextGroupId)] else []) := rfl

theorem doTab_assignInv (o : Oracle) (total : Nat) (w : Int) (s : St)
    (pt : Nat × ExportedTab) (h : AssignInv s) : AssignInv (doTab o total w s pt) := by
  intro g p t n hmem
  rw [doTab_events] at hmem
  rw [doTab_groupIdMap]
  rcases List.mem_append.mp hmem with h1 | h2
  · exact h g p t n h1
  · exact mem_assign_tabEmits h2

theorem doGroupCreate_assignInv (o : Oracle) (g' : ExportedGroup) (w : Int) (s : St)
    (h : AssignInv s) : AssignInv (doGroupCreate o g' w s) := by
  intro g p t n hmem
  rw [doGroupCreate_events] at hmem
  rw [doGroupCreate_groupIdMap]
  rcases List.mem_append.mp hmem with h1 | h2
  · exact alookup_append_some (h g p t n h1)
  · exact absurd h2 mem_assign_groupEmits

theorem gstep_assignInv (o : Oracle) (w : Int) (s : St) (g : ExportedGroup)
    (h : AssignInv s) : AssignInv (gstep o w s g) := by
  unfold gstep
  split_ifs
  · exact h
  · exact doGroupCreate_assignInv o g w s h

theorem foldGroups_assignInv (o : Oracle) (w : Int) (L : List ExportedGroup) :
    ∀ s : St, AssignInv s → AssignInv (L.foldl (gstep o w) s) := by
  induction L with
  | nil => intro s h; exact h
  | cons g rest ih =>
    intro s h
    exact ih _ (gstep_assignInv o w s g h)

theorem doGroups_assignInv (o : Oracle) (groups : List ExportedGroup)
    (wtabs : List (Nat × ExportedTab)) (w : Int) (s : St) (h : AssignInv s) :
    AssignInv (doGroups o groups wtabs w s) := by
  rw [doGroups_eq_fold]
  split_ifs
  · exact foldGroups_assignInv o w _ s h
  · exact h

theorem foldTab_assignInv (o : Oracle) (total : Nat) (w : Int)
    (batch : List (Nat × ExportedTab)) :
    ∀ s : St, AssignInv s → AssignInv (batch.foldl (doTab o total w) s) := by
  induction batch with
  | nil => intro s h; exact h
  | cons pt rest ih =>
    intro s h
    exact ih _ (doTab_assignInv o total w s pt h)

theorem doBatch_assignInv (o : Oracle) (total : Nat) (w : Int) (s : St)
    (batch : List (Nat × ExportedTab)) (h : AssignInv s) :
    AssignInv (doBatch o total w s batch) := by
  unfold doBatch
  intro g p t n hmem
  simp only [List.mem_append] at hmem
  rcases hmem with h1 | h2
  · exact foldTab_assignInv o total w batch s h g p t n h1
  · simp at h2

theorem foldBatch_assignInv (o : Oracle) (total : Nat) (w : Int)
    (L : List (List (Nat × ExportedTab))) :
    ∀ s : St, AssignInv s → AssignInv (L.foldl (doBatch o total w) s) := by
  induction L with
  | nil => intro s h; exact h
  | cons b rest ih =>
    intro s h
    exact ih _ (doBatch_assignInv o total w s b h)

theorem doBatches_assignInv (o : Oracle) (bs total : Nat) (w : Int)
    (sorted : List (Nat × ExportedTab)) (s : St) (h : AssignInv s) :
    AssignInv (doBatches o bs total w sorted s) :=
  foldBatch_assignInv o total w _ s h

theorem marker_assignInv1 (s : St) (h : AssignInv s) :
    AssignInv { s with events := s.events ++ [Event.getCurrentWindow] } := by
  intro g p t n hmem
  simp only [List.mem_append] at hmem
  rcases hmem with h1 | h2
  · exact h g p t n h1
  · simp at h2

theorem marker_assignInv2 (s : St) (wid : Int) (h : AssignInv s) :
    AssignInv
      { s with
        events := s.events ++ [Event.createWindow wid],
        winOrd := s.winOrd + 1 } := by
  intro g p t n hmem
  simp only [List.mem_append] at hmem
  rcases hmem with h1 | h2
  · exact h g p t n h1
  · simp at h2

theorem doWindow_assignInv (o : Oracle) (bs total : Nat) (groups : List ExportedGroup)
    (isFirst : Bool) (s : St) (p : Int × List (Nat × ExportedTab)) (h : AssignInv s) :
    AssignInv (outState (doWindow o bs total groups isFirst s p)) := by
  unfold doWindow
  cases isFirst with
  | true =>
    simp only [if_true]
    split_ifs with hc
    · exact doBatches_assignInv _ _ _ _ _ _
        (doGroups_assignInv _ _ _ _ _ (marker_assignInv1 s h))
    · exact marker_assignInv1 s h
  | false =>
    simp only [Bool.false_eq_true, if_false]
    split_ifs with hc
    · exact doBatches_assignInv _ _ _ _ _ _
        (doGroups_assignInv _ _ _ _ _ (marker_assignInv2 s _ h))
    · exact marker_assignInv2 s _ h

theorem processWindows_assignInv (o : Oracle) (bs total : Nat)
    (groups : List ExportedGroup) (fk : Option Int) :
    ∀ (parts : List (Int × List (Nat × ExportedTab))) (s : St), AssignInv s →
      AssignInv (outState (processWindows o bs total groups fk parts s)) := by
  intro parts
  induction parts with
  | nil => intro s h; exact h
  | cons p rest ih =>
    intro s h
    have hw := doWindow_assignInv o bs total groups (decide (fk = some p.1)) s p h
    unfold processWindows
    cases hdw : doWindow o bs total groups (decide (fk = some p.1)) s p with
    | ok s1 =>
      rw [hdw] at hw
      exact ih s1 hw
    | error s1 =>
      rw [hdw] at hw
      exact hw

/- The remap table only ever grows: an established mapping survives to
the end of the import. -/

theorem doTab_alookup_some {x v : Int} (o : Oracle) (total : Nat) (w : Int) (s : St)
    (pt : Nat × ExportedTab) (h : alookup s.groupIdMap x = some v) :
    alookup (doTab o total w s pt).groupIdMap x = some v := by
  rw [doTab_groupIdMap]
  exact h

theorem foldTab_alookup_some {x v : Int} (o : Oracle) (total : Nat) (w : Int)
    (batch : List (Nat × ExportedTab)) (s : St) (h : alookup s.groupIdMap x = some v) :
    alookup ((batch.foldl (doTab o total w) s)).groupIdMap x = some v := by
  rw [foldTab_groupIdMap]
  exact h

theorem doBatches_alookup_some {x v : Int} (o : Oracle) (bs total : Nat) (w : Int)
    (sorted : List (Nat × ExportedTab)) (s : St) (h : alookup s.groupIdMap x = some v) :
    alookup (doBatches o bs total w sorted s).groupIdMap x = some v := by
  rw [doBatches_groupIdMap]
  exact h

theorem doWindow_alookup_some {x v : Int} (o : Oracle) (bs total : Nat)
    (groups : List ExportedGroup) (isFirst : Bool) (s : St)
    (p : Int × List (Nat × ExportedTab)) (h : alookup s.groupIdMap x = some v) :
    alookup (outState (doWindow o bs total groups isFirst s p)).groupIdMap x = some v := by
  unfold doWindow
  cases isFirst with
  | true =>
    simp only [if_true]
    split_ifs with hc
    · exact doBatches_alookup_some _ _ _ _ _ _ (doGroups_alookup_some _ _ _ _ _ h)
    · exact h
  | false =>
    simp only [Bool.false_eq_true, if_false]
    split_ifs with hc
    · exact doBatches_alookup_some _ _ _ _ _ _ (doGroups_alookup_some _ _ _ _ _ h)
    · exact h

theorem processWindows_alookup_some {x v : Int} (o : Oracle) (bs total : Nat)
    (groups : List ExportedGroup) (fk : Option Int) :
    ∀ (parts : List (Int × List (Nat × ExportedTab))) (s : St),
      alookup s.groupIdMap x = some v →
      alookup (outState (processWindows o bs total groups fk parts s)).groupIdMap x =
        some v := by
  intro parts
  induction parts with
  | nil => intro s h; exact h
  | cons p rest ih =>
    intro s h
    have hw := doWindow_alookup_some o bs total groups (decide (fk = some p.1)) s p h
    unfold processWindows
    cases hdw : doWindow o bs total groups (decide (fk = some p.1)) s p with
    | ok s1 =>
      rw [hdw] at hw
      exact ih s1 hw
    | error s1 =>
      rw [hdw] at hw
      exact hw

/- The once-per-group invariant, threaded through the import under a
host whose group-creation sequence succeeds for the observed id. -/

theorem countTemp_sleepE (g : Int) : countTemp g [Event.sleep] = 0 := rfl

theorem countCreate_sleepE : countCreate [Event.sleep] = 0 := rfl

theorem doTab_groupOnce (g : Int) (o : Oracle) (total : Nat) (w : Int) (s : St)
    (pt : Nat × ExportedTab) (h : GroupOnce g s) : GroupOnce g (doTab o total w s pt) := by
  obtain ⟨hle, hiff⟩ := h
  unfold GroupOnce
  rw [doTab_events, doTab_groupIdMap, countTemp_append, countTemp_tabEmits, Nat.add_zero]
  exact ⟨hle, hiff⟩

theorem doGroupCreate_groupOnce (g : Int) (o : Oracle) (g' : ExportedGroup) (w : Int)
    (s : St) (hnone : alookup s.groupIdMap g'.id = none)
    (hgg : groupCreateOk o g = true) (h : GroupOnce g s) :
    GroupOnce g (doGroupCreate o g' w s) := by
  obtain ⟨hle, hiff⟩ := h
  unfold GroupOnce
  rw [doGroupCreate_countTemp, doGroupCreate_groupIdMap]
  by_cases hid : g'.id = g
  · subst hid
    have hcnt0 : countTemp g'.id s.events = 0 := by
      have hne : ¬ countTemp g'.id s.events = 1 := by
        intro hc
        have := hiff.mpr hc
        simp [hnone] at this
      omega
    rw [if_pos rfl, if_pos hgg, alookup_append_none hnone, alookup_single_eq]
    refine ⟨by omega, ?_⟩
    simp [hcnt0]
  · rw [if_neg hid, Nat.add_zero]
    refine ⟨hle, ?_⟩
    cases hm : alookup s.groupIdMap g with
    | some v =>
      rw [alookup_append_some hm]
      rw [hm] at hiff
      exact hiff
    | none =>
      rw [alookup_append_none hm]
      have hd : alookup
          (if groupCreateOk o g'.id then [(g'.id, Int.ofNat s.nextGroupId)] else []) g =
          none := by
        split_ifs
        · exact alookup_single_ne hid
        · rfl
      rw [hd]
      rw [hm] at hiff
      exact hiff

theorem gstep_groupOnce (g : Int) (o : Oracle) (w : Int) (s : St) (g' : ExportedGroup)
    (hgg : groupCreateOk o g = true) (h : GroupOnce g s) : GroupOnce g (gstep o w s g') := by
  unfold gstep
  split_ifs with hs
  · exact h
  · have hnone : alookup s.groupIdMap g'.id = none := by
      cases hm : alookup s.groupIdMap g'.id with
      | none => rfl
      | some v => rw [hm] at hs; simp at hs
    exact doGroupCreate_groupOnce g o g' w s hnone hgg h

theorem foldGroups_groupOnce (g : Int) (o : Oracle) (w : Int) (L : List ExportedGroup)
    (hgg : groupCreateOk o g = true) :
    ∀ s : St, GroupOnce g s → GroupOnce g (L.foldl (gstep o w) s) := by
  induction L with
  | nil => intro s h; exact h
  | cons g' rest ih =>
    intro s h
    exact ih _ (gstep_groupOnce g o w s g' hgg h)

theorem doGroups_groupOnce (g : Int) (o : Oracle) (groups : List ExportedGroup)
    (wtabs : List (Nat × ExportedTab)) (w : Int) (s : St)
    (hgg : groupCreateOk o g = true) (h : GroupOnce g s) :
    GroupOnce g (doGroups o groups wtabs w s) := by
  rw [doGroups_eq_fold]
  split_ifs
  · exact foldGroups_groupOnce g o w _ hgg s h
  · exact h

theorem foldTab_groupOnce (g : Int) (o : Oracle) (total : Nat) (w : Int)
    (batch : List (Nat × ExportedTab)) :
    ∀ s : St, GroupOnce g s → GroupOnce g (batch.foldl (doTab o total w) s) := by
  induction batch with
  | nil => intro s h; exact h
  | cons pt rest ih =>
    intro s h
    exact ih _ (doTab_groupOnce g o total w s pt h)

theorem doBatch_groupOnce (g : Int) (o : Oracle) (total : Nat) (w : Int) (s : St)
    (batch : List (Nat × ExportedTab)) (h : GroupOnce g s) :
    GroupOnce g (doBatch o total w s batch) := by
  have h' := foldTab_groupOnce g o total w batch s h
  obtain ⟨hle, hiff⟩ := h'
  unfold doBatch GroupOnce
  rw [countTemp_append, countTemp_sleepE, Nat.add_zero]
  exact ⟨hle, hiff⟩

theorem foldBatch_groupOnce (g : Int) (o : Oracle) (total : Nat) (w : Int)
    (L : List (List (Nat × ExportedTab))) :
    ∀ s : St, GroupOnce g s → GroupOnce g (L.foldl (doBatch o total w) s) := by
  induction L with
  | nil => intro s h; exact h
  | cons b rest ih =>
    intro s h
    exact ih _ (doBatch_groupOnce g o total w s b h)

theorem doBatches_groupOnce (g : Int) (o : Oracle) (bs total : Nat) (w : Int)
    (sorted : List (Nat × ExportedTab)) (s : St) (h : GroupOnce g s) :
    GroupOnce g (doBatches o bs total w sorted s) :=
  foldBatch_groupOnce g o total w _ s h

theorem marker_groupOnce1 (g : Int) (s : St) (h : GroupOnce g s) :
    GroupOnce g { s with events := s.events ++ [Event.getCurrentWindow] } := by
  obtain ⟨hle, hiff⟩ := h
  unfold GroupOnce
  rw [countTemp_append, countTemp_marker1, Nat.add_zero]
  exact ⟨hle, hiff⟩

theorem marker_groupOnce2 (g : Int) (s : St) (wid : Int) (h : GroupOnce g s) :
    GroupOnce g
      { s with
        events := s.events ++ [Event.createWindow wid],
        winOrd := s.winOrd + 1 } := by
  obtain ⟨hle, hiff⟩ := h
  unfold GroupOnce
  rw [countTemp_append, countTemp_marker2, Nat.add_zero]
  exact ⟨hle, hiff⟩

theorem doWindow_groupOnce (g : Int) (o : Oracle) (bs total : Nat)
    (groups : List ExportedGroup) (isFirst : Bool) (s : St)
    (p : Int × List (Nat × ExportedTab)) (hgg : groupCreateOk o g = true)
    (h : GroupOnce g s) :
    GroupOnce g (outState (doWindow o bs total groups isFirst s p)) := by
  unfold doWindow
  cases isFirst with
  | true =>
    simp only [if_true]
    split_ifs with hc
    · exact doBatches_groupOnce g _ _ _ _ _ _
        (doGroups_groupOnce g _ _ _ _ _ hgg (marker_groupOnce1 g s h))
    · exact marker_groupOnce1 g s h
  | false =>
    simp only [Bool.false_eq_true, if_false]
    split_ifs with hc
    · exact doBatches_groupOnce g _ _ _ _ _ _
        (doGroups_groupOnce g _ _ _ _ _ hgg (marker_groupOnce2 g s _ h))
    · exact marker_groupOnce2 g s _ h

theorem processWindows_groupOnce (g : Int) (o : Oracle) (bs total : Nat)
    (groups : List ExportedGroup) (fk : Option Int) (hgg : groupCreateOk o g = true) :
    ∀ (parts : List (Int × List (Nat × ExportedTab))) (s : St), GroupOnce g s →
      GroupOnce g (outState (processWindows o bs total groups fk parts s)) := by
  intro parts
  induction parts with
  | nil => intro s h; exact h
  | cons p rest ih =>
    intro s h
    have hw := doWindow_groupOnce g o bs total groups (decide (fk = some p.1)) s p hgg h
    unfold processWindows
    cases hdw : doWindow o bs total groups (decide (fk = some p.1)) s p with
    | ok s1 =>
      rw [hdw] at hw
      exact ih s1 hw
    | error s1 =>
      rw [hdw] at hw
      exact hw

/- The never-grouped invariant, threaded through the import under a
host whose group-creation sequence always fails for the observed id. -/

theorem doTab_noGroup (g : Int) (o : Oracle) (total : Nat) (w : Int) (s : St)
    (pt : Nat × ExportedTab) (h : NoGroupFor g s) : NoGroupFor g (doTab o total w s pt) := by
  obtain ⟨hnone, hnoassign⟩ := h
  constructor
  · rw [doTab_groupIdMap]
    exact hnone
  · intro p t n hmem
    rw [doTab_events] at hmem
    rcases List.mem_append.mp hmem with h1 | h2
    · exact hnoassign p t n h1
    · have := mem_assign_tabEmits h2
      rw [hnone] at this
      exact Option.noConfusion this

theorem doGroupCreate_noGroup (g : Int) (o : Oracle) (g' : ExportedGroup) (w : Int)
    (s : St) (hfail : groupCreateOk o g = false) (h : NoGroupFor g s) :
    NoGroupFor g (doGroupCreate o g' w s) := by
  obtain ⟨hnone, hnoassign⟩ := h
  constructor
  · rw [doGroupCreate_groupIdMap, alookup_append_none hnone]
    by_cases hid : g'.id = g
    · subst hid
      rw [hfail]
      simp
      rfl
    · split_ifs
      · exact alookup_single_ne hid
      · rfl
  · intro p t n hmem
    rw [doGroupCreate_events] at hmem
    rcases List.mem_append.mp hmem with h1 | h2
    · exact hnoassign p t n h1
    · exact absurd h2 mem_assign_groupEmits

theorem gstep_noGroup (g : Int) (o : Oracle) (w : Int) (s : St) (g' : ExportedGroup)
    (hfail : groupCreateOk o g = false) (h : NoGroupFor g s) :
    NoGroupFor g (gstep o w s g') := by
  unfold gstep
  split_ifs
  · exact h
  · exact doGroupCreate_noGroup g o g' w s hfail h

theorem foldGroups_noGroup (g : Int) (o : Oracle) (w : Int) (L : List ExportedGroup)
    (hfail : groupCreateOk o g = false) :
    ∀ s : St, NoGroupFor g s → NoGroupFor g (L.foldl (gstep o w) s) := by
  induction L with
  | nil => intro s h; exact h
  | cons g' rest ih =>
    intro s h
    exact ih _ (gstep_noGroup g o w s g' hfail h)

theorem doGroups_noGroup (g : Int) (o : Oracle) (groups : List ExportedGroup)
    (wtabs : List (Nat × ExportedTab)) (w : Int) (s : St)
    (hfail : groupCreateOk o g = false) (h : NoGroupFor g s) :
    NoGroupFor g (doGroups o groups wtabs w s) := by
  rw [doGroups_eq_fold]
  split_ifs
  · exact foldGroups_noGroup g o w _ hfail s h
  · exact h

theorem foldTab_noGroup (g : Int) (o : Oracle) (total : Nat) (w : Int)
    (batch : List (Nat × ExportedTab)) :
    ∀ s : St, NoGroupFor g s → NoGroupFor g (batch.foldl (doTab o total w) s) := by
  induction batch with
  | nil => intro s h; exact h
  | cons pt rest ih =>
    intro s h
    exact ih _ (doTab_noGroup g o total w s pt h)

theorem doBatch_noGroup (g : Int) (o : Oracle) (total : Nat) (w : Int) (s : St)
    (batch : List (Nat × ExportedTab)) (h : NoGroupFor g s) :
    NoGroupFor g (doBatch o total w s batch) := by
  obtain ⟨hnone, hnoassign⟩ := foldTab_noGroup g o total w batch s h
  unfold doBatch
  constructor
  · exact hnone
  · intro p t n hmem
    simp only [List.mem_append] at hmem
    rcases hmem with h1 | h2
    · exact hnoassign p t n h1
    · simp at h2

theorem foldBatch_noGroup (g : Int) (o : Oracle) (total : Nat) (w : Int)
    (L : List (List (Nat × ExportedTab))) :
    ∀ s : St, NoGroupFor g s → NoGroupFor g (L.foldl (doBatch o total w) s) := by
  induction L with
  | nil => intro s h; exact h
  | cons b rest ih =>
    intro s h
    exact ih _ (doBatch_noGroup g o total w s b h)

theorem doBatches_noGroup (g : Int) (o : Oracle) (bs total : Nat) (w : Int)
    (sorted : List (Nat × ExportedTab)) (s : St) (h : NoGroupFor g s) :
    NoGroupFor g (doBatches o bs total w sorted s) :=
  foldBatch_noGroup g o total w _ s h

theorem marker_noGroup1 (g : Int) (s : St) (h : NoGroupFor g s) :
    NoGroupFor g { s with events := s.events ++ [Event.getCurrentWindow] } := by
  obtain ⟨hnone, hnoassign⟩ := h
  refine ⟨hnone, ?_⟩
  intro p t n hmem
  simp only [List.mem_append] at hmem
  rcases hmem with h1 | h2
  · exact hnoassign p t n h1
  · simp at h2

theorem marker_noGroup2 (g : Int) (s : St) (wid : Int) (h : NoGroupFor g s) :
    NoGroupFor g
      { s with
        events := s.events ++ [Event.createWindow wid],
        winOrd := s.winOrd + 1 } := by
  obtain ⟨hnone, hnoassign⟩ := h
  refine ⟨hnone, ?_⟩
  intro p t n hmem
  simp only [List.mem_append] at hmem
  rcases hmem with h1 | h2
  · exact hnoassign p t n h1
  · simp at h2

theorem doWindow_noGroup (g : Int) (o : Oracle) (bs total : Nat)
    (groups : List ExportedGroup) (isFirst : Bool) (s : St)
    (p : Int × List (Nat × ExportedTab)) (hfail : groupCreateOk o g = false)
    (h : NoGroupFor g s) :
    NoGroupFor g (outState (doWindow o bs total groups isFirst s p)) := by
  unfold doWindow
  cases isFirst with
  | true =>
    simp only [if_true]
    split_ifs with hc
    · exact doBatches_noGroup g _ _ _ _ _ _
        (doGroups_noGroup g _ _ _ _ _ hfail (marker_noGroup1 g s h))
    · exact marker_noGroup1 g s h
  | false =>
    simp only [Bool.false_eq_true, if_false]
    split_ifs with hc
    · exact doBatches_noGroup g _ _ _ _ _ _
        (doGroups_noGroup g _ _ _ _ _ hfail (marker_noGroup2 g s _ h))
    · exact marker_noGroup2 g s _ h

theorem processWindows_noGroup (g : Int) (o : Oracle) (bs total : Nat)
    (groups : List ExportedGroup) (fk : Option Int) (hfail : groupCreateOk o g = false) :
    ∀ (parts : List (Int × List (Nat × ExportedTab))) (s : St), NoGroupFor g s →
      NoGroupFor g (outState (processWindows o bs total groups fk parts s)) := by
  intro parts
  induction parts with
  | nil => intro s h; exact h
  | cons p rest ih =>
    intro s h
    have hw := doWindow_noGroup g o bs total groups (decide (fk = some p.1)) s p hfail h
    unfold processWindows
    cases hdw : doWindow o bs total groups (decide (fk = some p.1)) s p with
    | ok s1 =>
      rw [hdw] at hw
      exact ih s1 hw
    | error s1 =>
      rw [hdw] at hw
      exact hw

/- The progress invariant: the setImportProgress trace always has the
canonical shape for importedCount, and importedCount never exceeds the
tab creations attempted so far. -/

theorem progShape_succ (total n : Nat) :
    progShape total (n + 1) = progShape total n ++ [some (n + 1, total)] := by
  simp [progShape, List.range_succ]

theorem doTab_progressOk (total : Nat) (o : Oracle) (w : Int) (s : St)
    (pt : Nat × ExportedTab) (h : ProgressOk total s) :
    ProgressOk total (doTab o total w s pt) := by
  obtain ⟨hshape, hle⟩ := h
  unfold ProgressOk doTab
  dsimp only
  cases ht : tabOk o pt with
  | true =>
    simp only [if_true]
    constructor
    · rw [hshape]
      exact (progShape_succ total s.importedCount).symm
    · rw [countCreate_append, countCreate_tabEmits]
      omega
  | false =>
    simp only [Bool.false_eq_true, if_false]
    constructor
    · simpa using hshape
    · rw [countCreate_append, countCreate_tabEmits]
      omega

theorem doGroupCreate_progressOk (total : Nat) (o : Oracle) (g : ExportedGroup)
    (w : Int) (s : St) (h : ProgressOk total s) :
    ProgressOk total (doGroupCreate o g w s) := by
  obtain ⟨hshape, hle⟩ := h
  constructor
  · rw [doGroupCreate_progress, doGroupCreate_importedCount]
    exact hshape
  · rw [doGroupCreate_importedCount, doGroupCreate_countCreate]
    exact hle

theorem gstep_progressOk (total : Nat) (o : Oracle) (w : Int) (s : St)
    (g : ExportedGroup) (h : ProgressOk total s) : ProgressOk total (gstep o w s g) := by
  unfold gstep
  split_ifs
  · exact h
  · exact doGroupCreate_progressOk total o g w s h

theorem foldGroups_progressOk (total : Nat) (o : Oracle) (w : Int)
    (L : List ExportedGroup) :
    ∀ s : St, ProgressOk total s → ProgressOk total (L.foldl (gstep o w) s) := by
  induction L with
  | nil => intro s h; exact h
  | cons g rest ih =>
    intro s h
    exact ih _ (gstep_progressOk total o w s g h)

theorem doGroups_progressOk (total : Nat) (o : Oracle) (groups : List ExportedGroup)
    (wtabs : List (Nat × ExportedTab)) (w : Int) (s : St) (h : ProgressOk total s) :
    ProgressOk total (doGroups o groups wtabs w s) := by
  rw [doGroups_eq_fold]
  split_ifs
  · exact foldGroups_progressOk total o w _ s h
  · exact h

theorem foldTab_progressOk (total : Nat) (o : Oracle) (w : Int)
    (batch : List (Nat × ExportedTab)) :
    ∀ s : St, ProgressOk total s → ProgressOk total (batch.foldl (doTab o total w) s) := by
  induction batch with
  | nil => intro s h; exact h
  | cons pt rest ih =>
    intro s h
    exact ih _ (doTab_progressOk total o w s pt h)

theorem doBatch_progressOk (total : Nat) (o : Oracle) (w : Int) (s : St)
    (batch : List (Nat × ExportedTab)) (h : ProgressOk total s) :
    ProgressOk total (doBatch o total w s batch) := by
  obtain ⟨hshape, hle⟩ := foldTab_progressOk total o w batch s h
  unfold doBatch
  constructor
  · exact hshape
  · rw [countCreate_append, countCreate_sleepE]
    simpa using hle

theorem foldBatch_progressOk (total : Nat) (o : Oracle) (w : Int)
    (L : List (List (Nat × ExportedTab))) :
    ∀ s : St, ProgressOk total s → ProgressOk total (L.foldl (doBatch o total w) s) := by
  induction L with
  | nil => intro s h; exact h
  | cons b rest ih =>
    intro s h
    exact ih _ (doBatch_progressOk total o w s b h)

theorem doBatches_progressOk (total : Nat) (o : Oracle) (bs : Nat) (w : Int)
    (sorted : List (Nat × ExportedTab)) (s : St) (h : ProgressOk total s) :
    ProgressOk total (doBatches o bs total w sorted s) :=
  foldBatch_progressOk total o w _ s h

theorem marker_progressOk1 (total : Nat) (s : St) (h : ProgressOk total s) :
    ProgressOk total { s with events := s.events ++ [Event.getCurrentWindow] } := by
  obtain ⟨hshape, hle⟩ := h
  refine ⟨hshape, ?_⟩
  dsimp only
  rw [countCreate_append, countCreate_marker1]
  omega

theorem marker_progressOk2 (total : Nat) (s : St) (wid : Int) (h : ProgressOk total s) :
    ProgressOk total
      { s with
        events := s.events ++ [Event.createWindow wid],
        winOrd := s.winOrd + 1 } := by
  obtain ⟨hshape, hle⟩ := h
  refine ⟨hshape, ?_⟩
  dsimp only
  rw [countCreate_append, countCreate_marker2]
  omega

theorem doWindow_progressOk (total : Nat) (o : Oracle) (bs : Nat)
    (groups : List ExportedGroup) (isFirst : Bool) (s : St)
    (p : Int × List (Nat × ExportedTab)) (h : ProgressOk total s) :
    ProgressOk total (outState (doWindow o bs total groups isFirst s p)) := by
  unfold doWindow
  cases isFirst with
  | true =>
    simp only [if_true]
    split_ifs with hc
    · exact doBatches_progressOk total _ _ _ _ _
        (doGroups_progressOk total _ _ _ _ _ (marker_progressOk1 total s h))
    · exact marker_progressOk1 total s h
  | false =>
    simp only [Bool.false_eq_true, if_false]
    split_ifs with hc
    · exact doBatches_progressOk total _ _ _ _ _
        (doGroups_progressOk total _ _ _ _ _ (marker_progressOk2 total s _ h))
    · exact marker_progressOk2 total s _ h

theorem processWindows_progressOk (total : Nat) (o : Oracle) (bs : Nat)
    (groups : List ExportedGroup) (fk : Option Int) :
    ∀ (parts : List (Int × List (Nat × ExportedTab))) (s : St), ProgressOk total s →
      ProgressOk total (outState (processWindows o bs total groups fk parts s)) := by
  intro parts
  induction parts with
  | nil => intro s h; exact h
  | cons p rest ih =>
    intro s h
    have hw := doWindow_progressOk total o bs groups (decide (fk = some p.1)) s p h
    unfold processWindows
    cases hdw : doWindow o bs total groups (decide (fk = some p.1)) s p with
    | ok s1 =>
      rw [hdw] at hw
      exact ih s1 hw
    | error s1 =>
      rw [hdw] at hw
      exact hw

/- Bound on the number of tab creations attempted by an import: at most
one per tab of the snapshot, whatever the oracle decides and whatever
the batch size. -/

theorem chunkGo_sum_length_le {a : Type} (bs : Nat) :
    ∀ (fuel : Nat) (xs : List a), ((chunkGo bs fuel xs).map List.length).sum ≤ xs.length := by
  intro fuel
  induction fuel with
  | zero => intro xs; simp [chunkGo]
  | succ f ih =>
    intro xs
    cases xs with
    | nil => simp [chunkGo]
    | cons x t =>
      have h1 := ih ((x :: t).drop bs)
      simp only [chunkGo, List.map_cons, List.sum_cons]
      have h2 : (List.take bs (x :: t)).length = min bs (x :: t).length :=
        List.length_take bs (x :: t)
      have h3 : (List.drop bs (x :: t)).length = (x :: t).length - bs :=
        List.length_drop bs (x :: t)
      simp only [List.length_cons] at h2 h3 ⊢
      omega

theorem doBatches_countCreate_le (o : Oracle) (bs total : Nat) (w : Int)
    (sorted : List (Nat × ExportedTab)) (s : St) :
    countCreate ((doBatches o bs total w sorted s).events) ≤
      countCreate s.events + sorted.length := by
  unfold doBatches
  rw [foldBatch_countCreate]
  have := chunkGo_sum_length_le bs sorted.length sorted
  unfold chunkList
  omega

theorem doWindow_countCreate_le (o : Oracle) (bs total : Nat)
    (groups : List ExportedGroup) (isFirst : Bool) (s : St)
    (p : Int × List (Nat × ExportedTab)) :
    countCreate ((outState (doWindow o bs total groups isFirst s p)).events) ≤
      countCreate s.events + p.2.length := by
  unfold doWindow
  cases isFirst with
  | true =>
    simp only [if_true]
    split_ifs with hc
    · refine le_trans (doBatches_countCreate_le _ _ _ _ _ _) ?_
      rw [doGroups_countCreate, countCreate_append, countCreate_marker1,
        sortByIndex_length]
      omega
    · simp only [outState]
      rw [countCreate_append, countCreate_marker1]
      omega
  | false =>
    simp only [Bool.false_eq_true, if_false]
    split_ifs with hc
    · refine le_trans (doBatches_countCreate_le _ _ _ _ _ _) ?_
      rw [doGroups_countCreate, countCreate_append, countCreate_marker2,
        sortByIndex_length]
      omega
    · simp only [outState]
      rw [countCreate_append, countCreate_marker2]
      omega

theorem processWindows_countCreate_le (o : Oracle) (bs total : Nat)
    (groups : List ExportedGroup) (fk : Option Int) :
    ∀ (parts : List (Int × List (Nat × ExportedTab))) (s : St),
      countCreate ((outState (processWindows o bs total groups fk parts s)).events) ≤
        countCreate s.events + (parts.map (fun p => p.2.length)).sum := by
  intro parts
  induction parts with
  | nil => intro s; simp [processWindows, outState]
  | cons p rest ih =>
    intro s
    have hw := doWindow_countCreate_le o bs total groups (decide (fk = some p.1)) s p
    unfold processWindows
    cases hdw : doWindow o bs total groups (decide (fk = some p.1)) s p with
    | ok s1 =>
      rw [hdw] at hw
      simp only [outState] at hw
      have := ih s1
      simp only [List.map_cons, List.sum_cons]
      omega
    | error s1 =>
      rw [hdw] at hw
      simp only [outState] at hw ⊢
      simp only [List.map_cons, List.sum_cons]
      omega

/- The bucket sizes of the partition map add up to the snapshot size,
and the per-bucket counts of successful tasks add up to the whole. -/

theorem sum_sizes_tabsByWindow (l : List (Nat × ExportedTab)) :
    ((tabsByWindow l).map (fun p => p.2.length)).sum = l.length := by
  have h2 : (flattenParts (tabsByWindow l)).length = l.length :=
    (flattenParts_tabsByWindow l).length_eq
  unfold flattenParts at h2
  rw [List.length_flatten, List.map_map] at h2
  simpa [Function.comp] using h2

theorem sum_countP_tabsByWindow (p : Nat × ExportedTab → Bool)
    (l : List (Nat × ExportedTab)) :
    ((tabsByWindow l).map (fun q => q.2.countP p)).sum = l.countP p := by
  have h2 : (flattenParts (tabsByWindow l)).countP p = l.countP p :=
    (flattenParts_tabsByWindow l).countP_eq p
  unfold flattenParts at h2
  rw [List.countP_flatten, List.map_map] at h2
  simpa [Function.comp] using h2

/- A group referenced by some bucket of the processed partition ends up
in the remap table whenever its creation sequence succeeds. -/

theorem doWindow_refSome (o : Oracle) (bs total : Nat) (groups : List ExportedGroup)
    (isFirst : Bool) (s : St) (p : Int × List (Nat × ExportedTab)) {g : ExportedGroup}
    (ha : o.tabGroupsAvail = true) (hgg : groupCreateOk o g.id = true)
    (hgmem : g ∈ groups) (hpt : ∃ pt ∈ p.2, pt.2.groupId = g.id) :
    ∀ s', doWindow o bs total groups isFirst s p = Except.ok s' →
      (alookup s'.groupIdMap g.id).isSome = true := by
  have hwg : g ∈ windowGroups groups (sortByIndex p.2) := by
    obtain ⟨pt, hpt1, hpt2⟩ := hpt
    refine List.mem_filter.mpr ⟨hgmem, ?_⟩
    refine List.any_eq_true.mpr ⟨pt, ?_, ?_⟩
    · exact (sortByIndex_perm p.2).mem_iff.mpr hpt1
    · simp [hpt2]
  unfold doWindow
  cases isFirst with
  | true =>
    simp only [if_true]
    split_ifs with hc
    · intro s' heq
      have heq' := Except.ok.inj heq
      subst heq'
      rw [doBatches_groupIdMap]
      exact doGroups_mem o groups _ _ _ ha hgg hwg
    · intro s' heq
      simp at heq
  | false =>
    simp only [Bool.false_eq_true, if_false]
    split_ifs with hc
    · intro s' heq
      have heq' := Except.ok.inj heq
      subst heq'
      rw [doBatches_groupIdMap]
      exact doGroups_mem o groups _ _ _ ha hgg hwg
    · intro s' heq
      simp at heq

theorem processWindows_refSome (o : Oracle) (bs total : Nat)
    (groups : List ExportedGroup) (fk : Option Int) {g : ExportedGroup}
    (ha : o.tabGroupsAvail = true) (hgg : groupCreateOk o g.id = true)
    (hgmem : g ∈ groups) :
    ∀ (parts : List (Int × List (Nat × ExportedTab))) (s s' : St),
      processWindows o bs total groups fk parts s = Except.ok s' →
      (∃ p ∈ parts, ∃ pt ∈ p.2, pt.2.groupId = g.id) →
      (alookup s'.groupIdMap g.id).isSome = true := by
  intro parts
  induction parts with
  | nil =>
    intro s s' heq href
    simp at href
  | cons p rest ih =>
    intro s s' heq href
    unfold processWindows at heq
    split at heq
    next s1 hdw =>
      obtain ⟨q, hq, hptq⟩ := href
      rcases List.mem_cons.mp hq with hq1 | hq2
      · subst hq1
        have h1 := doWindow_refSome o bs total groups (decide (fk = some q.1)) s q
          ha hgg hgmem hptq s1 hdw
        obtain ⟨v, hv⟩ := Option.isSome_iff_exists.mp h1
        have h2 := processWindows_alookup_some (x := g.id) (v := v) o bs total groups
          fk rest s1 hv
        rw [heq] at h2
        simp only [outState] at h2
        simp [h2]
      · exact ih s1 s' heq ⟨q, hq2, hptq⟩
    next s1 hdw =>
      exact absurd heq (by simp)

/- Reading the import outcome off the window loop. -/

theorem runImport_eq_ok (o : Oracle) (bs : Nat) (d : ExportData) (s' : St)
    (hpw : processWindows o bs d.tabs.length d.groups
      ((tabsByWindow d.tabs.enum).head?.map Prod.fst) (tabsByWindow d.tabs.enum)
      { events := [], progress := [none, some (0, d.tabs.length)], groupIdMap := [],
        importedCount := 0, nextTabId := 0, nextGroupId := 0, winOrd := 0 } =
      Except.ok s') :
    runImport o bs d =
      { ok := true, message := StatusMsg.success s'.importedCount,
        importedCount := s'.importedCount, events := s'.events,
        progress := s'.progress ++ [none] } := by
  unfold runImport
  dsimp only
  rw [hpw]

theorem runImport_eq_error (o : Oracle) (bs : Nat) (d : ExportData) (s' : St)
    (hpw : processWindows o bs d.tabs.length d.groups
      ((tabsByWindow d.tabs.enum).head?.map Prod.fst) (tabsByWindow d.tabs.enum)
      { events := [], progress := [none, some (0, d.tabs.length)], groupIdMap := [],
        importedCount := 0, nextTabId := 0, nextGroupId := 0, winOrd := 0 } =
      Except.error s') :
    runImport o bs d =
      { ok := false, message := StatusMsg.failure,
        importedCount := s'.importedCount, events := s'.events,
        progress := s'.progress ++ [none] } := by
  unfold runImport
  dsimp only
  rw [hpw]

/- The per-window replay contributions concatenate to a sorted list:
at most one bucket matches any originating window id, and its
contribution is sorted by index. -/

theorem contrib_eq_nil {w : Int} {p : Int × List (Nat × ExportedTab)}
    (hgoodp : ∀ x ∈ p.2, x.2.windowId = p.1) (hne : p.1 ≠ w) :
    ((sortByIndex p.2).filter (fun pt => decide (pt.2.windowId = w))).map
      (fun pt => pt.2.index) = [] := by
  have h1 : (sortByIndex p.2).filter (fun pt => decide (pt.2.windowId = w)) = [] := by
    rw [List.filter_eq_nil_iff]
    intro pt hpt
    have h2 : pt ∈ p.2 := (sortByIndex_perm p.2).mem_iff.mp hpt
    have h3 : pt.2.windowId = p.1 := hgoodp pt h2
    simp [h3, hne]
  rw [h1]
  rfl

theorem contribs_pairwise (w : Int) :
    ∀ parts : List (Int × List (Nat × ExportedTab)), partGood parts →
      (keysOf parts).Nodup →
      List.Pairwise (fun a b : Int => a ≤ b)
        ((parts.map (fun p =>
          ((sortByIndex p.2).filter (fun pt => decide (pt.2.windowId = w))).map
            (fun pt => pt.2.index))).flatten) := by
  intro parts
  induction parts with
  | nil => intro _ _; simp
  | cons p rest ih =>
    intro hgood hnodup
    have hgoodp : ∀ x ∈ p.2, x.2.windowId = p.1 :=
      fun x hx => hgood p (List.mem_cons_self _ _) x hx
    have hgoodrest : partGood rest :=
      fun q hq x hx => hgood q (List.mem_cons_of_mem _ hq) x hx
    simp only [keysOf, List.map_cons, List.nodup_cons] at hnodup
    simp only [List.map_cons, List.flatten_cons]
    by_cases hw : p.1 = w
    · have hrest : (rest.map (fun q =>
          ((sortByIndex q.2).filter (fun pt => decide (pt.2.windowId = w))).map
            (fun pt => pt.2.index))).flatten = [] := by
        rw [List.flatten_eq_nil_iff]
        intro l hl
        obtain ⟨q, hq, hql⟩ := List.mem_map.mp hl
        have hqne : q.1 ≠ w := by
          intro hqw
          exact hnodup.1 (hw ▸ hqw ▸ List.mem_map_of_mem Prod.fst hq)
        rw [← hql]
        exact contrib_eq_nil (fun x hx => hgoodrest q hq x hx) hqne
      rw [hrest, List.append_nil]
      have hsorted := sortByIndex_sorted p.2
      have hfil := hsorted.filter (fun pt => decide (pt.2.windowId = w))
      exact List.pairwise_map.mpr hfil
    · rw [contrib_eq_nil hgoodp hw, List.nil_append]
      exact ih hgoodrest hnodup.2

/- The visible progress entries of the canonical progress trace. -/

theorem progShape_filterMap (total n : Nat) :
    (progShape total n).filterMap id =
      (0, total) :: (List.range n).map (fun k => (k + 1, total)) := by
  induction n with
  | zero => rfl
  | succ m ih =>
    rw [progShape_succ, List.filterMap_append, ih, List.range_succ]
    simp

theorem pairwise_le_range_map (n total : Nat) :
    List.Pairwise (fun a b : Nat => a ≤ b)
      (((0, total) :: (List.range n).map (fun k => (k + 1, total))).map Prod.fst) := by
  have h1 : ((0, total) :: (List.range n).map (fun k => (k + 1, total))).map Prod.fst =
      0 :: (List.range n).map (fun k => k + 1) := by
    simp [List.map_map]
  rw [h1]
  have h2 : (0 : Nat) :: (List.range n).map (fun k => k + 1) = List.range (n + 1) := by
    rw [List.range_succ_eq_map]
  rw [h2]
  exact (List.pairwise_lt_range (n + 1)).imp (fun h => Nat.le_of_lt h)

/- Summary of a whole import under a host whose target-window calls
succeed. -/

theorem runImport_facts (o : Oracle) {bs : Nat} (hb : 1 ≤ bs) (d : ExportData)
    (hcur : o.currentWindowOk = true) (hcw : ∀ k, o.createWindowOk k = true) :
    ∃ s' : St,
      runImport o bs d =
        { ok := true, message := StatusMsg.success s'.importedCount,
          importedCount := s'.importedCount, events := s'.events,
          progress := s'.progress ++ [none] } ∧
      processWindows o bs d.tabs.length d.groups
        ((tabsByWindow d.tabs.enum).head?.map Prod.fst) (tabsByWindow d.tabs.enum)
        { events := [], progress := [none, some (0, d.tabs.length)], groupIdMap := [],
          importedCount := 0, nextTabId := 0, nextGroupId := 0, winOrd := 0 } =
        Except.ok s' ∧
      s'.importedCount = d.tabs.enum.countP (tabOk o) ∧
      countCreate s'.events = d.tabs.length ∧
      countSleep s'.events = totalBatches d bs ∧
      ∀ w, projIdx w s'.events =
        ((tabsByWindow d.tabs.enum).map (fun p =>
          ((sortByIndex p.2).filter (fun pt => decide (pt.2.windowId = w))).map
            (fun pt => pt.2.index))).flatten := by
  obtain ⟨s', hpw, hic, hcc, hcs, hpj⟩ :=
    processWindows_ok o hb d.tabs.length d.groups
      ((tabsByWindow d.tabs.enum).head?.map Prod.fst) hcur hcw (tabsByWindow d.tabs.enum)
      { events := [], progress := [none, some (0, d.tabs.length)], groupIdMap := [],
        importedCount := 0, nextTabId := 0, nextGroupId := 0, winOrd := 0 }
  refine ⟨s', runImport_eq_ok o bs d s' hpw, hpw, ?_, ?_, ?_, ?_⟩
  · rw [hic]
    have h1 := sum_countP_tabsByWindow (tabOk o) d.tabs.enum
    simpa using h1
  · rw [hcc]
    have h1 := sum_sizes_tabsByWindow d.tabs.enum
    have h2 : d.tabs.enum.length = d.tabs.length := List.enum_length
    simp [countCreate, h1, h2]
  · rw [hcs]
    unfold totalBatches
    simp [countSleep]
  · intro w
    rw [hpj w]
    simp [projIdx]

/-- C1: during reconstruction a per-tab creation failure does not cancel
sibling creations nor abort the import: every tab of the snapshot is
attempted (one creation attempt per tab), the import completes with the
success message, and the reported count equals the number of tabs whose
creation the host accepted (stated under a host whose window lookups and
mute updates succeed, the claim's frame where only tab creations fail). -/
theorem import_partial_failure_resilience (o : Oracle) (bs : Nat) (d : ExportData)
    (hb : 1 ≤ bs) (hcur : o.currentWindowOk = true)
    (hcw : ∀ k, o.createWindowOk k = true) (hmu : ∀ p, o.muteOk p = true) :
    (runImport o bs d).ok = true ∧
    (runImport o bs d).message = StatusMsg.success ((runImport o bs d).importedCount) ∧
    countCreate (runImport o bs d).events = d.tabs.length ∧
    (runImport o bs d).importedCount =
      (List.range d.tabs.length).countP o.createTabOk := by
  obtain ⟨s', heq, hpw, hic, hcc, hcs, hpj⟩ := runImport_facts o hb d hcur hcw
  rw [heq]
  refine ⟨rfl, rfl, hcc, ?_⟩
  have h1 : d.tabs.enum.countP (tabOk o) =
      d.tabs.enum.countP (fun pt => o.createTabOk pt.1) := by
    refine List.countP_congr ?_
    intro pt _
    simp [tabOk, hmu pt.1]
  have h2 : d.tabs.enum.countP (fun pt => o.createTabOk pt.1) =
      (d.tabs.enum.map Prod.fst).countP o.createTabOk := by
    rw [List.countP_map]
    rfl
  have h3 := List.enum_map_fst d.tabs
  dsimp only
  rw [hic, h1, h2, h3]

/-- C1 witness: three tabs in one window, the host rejecting the middle
creation: all three attempted, success message, count 2. -/
theorem import_partial_failure_resilience_witness :
    (runImport oFail1 10 dThree).ok = true ∧
    (runImport oFail1 10 dThree).message =
      StatusMsg.success ((runImport oFail1 10 dThree).importedCount) ∧
    countCreate (runImport oFail1 10 dThree).events = dThree.tabs.length ∧
    (runImport oFail1 10 dThree).importedCount =
      (List.range dThree.tabs.length).countP oFail1.createTabOk :=
  import_partial_failure_resilience oFail1 10 dThree (by decide) rfl (fun _ => rfl)
    (fun _ => rfl)

/-- C3 counterexample: a snapshot whose two tabs sit in two different
windows, with batchSize 10, is replayed in two batches (one per window
partition), not in the single batch the ceiling of T over batchSize
predicts. -/
theorem batch_count_multi_window_cex :
    ¬ (countSleep (runImport allOk 10 dTwoWin).events =
        ceilDiv dTwoWin.tabs.length 10) := by
  decide

/-- C3 amended: reconstruction of a snapshot with T tabs issues exactly
T tab-creation attempts, and the attempts are partitioned into the sum,
over the windowId partitions, of the ceiling of the partition size over
batchSize; this equals the ceiling of T over batchSize only when all
tabs share one window. -/
theorem batch_partition_counts (o : Oracle) (bs : Nat) (d : ExportData)
    (hb : 1 ≤ bs) (hcur : o.currentWindowOk = true)
    (hcw : ∀ k, o.createWindowOk k = true) :
    countCreate (runImport o bs d).events = d.tabs.length ∧
    countSleep (runImport o bs d).events = totalBatches d bs := by
  obtain ⟨s', heq, hpw, hic, hcc, hcs, hpj⟩ := runImport_facts o hb d hcur hcw
  rw [heq]
  exact ⟨hcc, hcs⟩

/-- C3 amended witness: the two-window snapshot with batchSize 10 gives
2 creation attempts in 2 batches. -/
theorem batch_partition_counts_witness :
    countCreate (runImport allOk 10 dTwoWin).events = dTwoWin.tabs.length ∧
    countSleep (runImport allOk 10 dTwoWin).events = totalBatches dTwoWin 10 :=
  batch_partition_counts allOk 10 dTwoWin (by decide) rfl (fun _ => rfl)

/-- C7: within one originating window partition, the replayed creations
occur in non-decreasing order of the exported index field. -/
theorem replay_order_preserved (o : Oracle) (bs : Nat) (d : ExportData) (w : Int)
    (hb : 1 ≤ bs) (hcur : o.currentWindowOk = true)
    (hcw : ∀ k, o.createWindowOk k = true) :
    List.Pairwise (fun a b : Int => a ≤ b) (projIdx w (runImport o bs d).events) := by
  obtain ⟨s', heq, hpw, hic, hcc, hcs, hpj⟩ := runImport_facts o hb d hcur hcw
  rw [heq]
  dsimp only
  rw [hpj w]
  exact contribs_pairwise w (tabsByWindow d.tabs.enum)
    (partGood_tabsByWindow d.tabs.enum) (nodup_keys_tabsByWindow d.tabs.enum)

/-- C7 witness: the three-tab single-window snapshot replays window 1 in
non-decreasing index order. -/
theorem replay_order_preserved_witness :
    List.Pairwise (fun a b : Int => a ≤ b)
      (projIdx 1 (runImport allOk 10 dThree).events) :=
  replay_order_preserved allOk 10 dThree 1 (by decide) rfl (fun _ => rfl)

/-- C8 counterexample: two tabs in one window with batchSize 10 and the
host rejecting the first creation: the single batch advances the
progress counter by 1, not by the batch size 2, and the batchDelay sleep
runs once even though this is the final batch of the final partition. -/
theorem progress_advance_and_sleep_cex :
    ¬ ((runImport oFail0 10 dPair).importedCount = 2 ∧
       countSleep (runImport oFail0 10 dPair).events = 0) := by
  decide

/-- C8 amended: after each batch settles the progress counter has
advanced by the number of tabs of that batch whose per-tab task
succeeded (not by the batch size when failures occur), and the
batchDelay sleep runs after every batch, including the final batch of
the final partition (one sleep per batch). -/
theorem progress_advance_and_sleep (o : Oracle) (bs : Nat) (d : ExportData)
    (hb : 1 ≤ bs) (hcur : o.currentWindowOk = true)
    (hcw : ∀ k, o.createWindowOk k = true) :
    countSleep (runImport o bs d).events = totalBatches d bs ∧
    ∀ (total : Nat) (w : Int) (batch : List (Nat × ExportedTab)) (s : St),
      (batch.foldl (doTab o total w) s).importedCount =
        s.importedCount + batch.countP (tabOk o) := by
  obtain ⟨s', heq, hpw, hic, hcc, hcs, hpj⟩ := runImport_facts o hb d hcur hcw
  rw [heq]
  exact ⟨hcs, fun total w batch s => foldTab_importedCount o total w batch s⟩

/-- C8 amended witness: the two-window snapshot sleeps once per batch
(twice in total), and the batch fold advances by the success count. -/
theorem progress_advance_and_sleep_witness :
    countSleep (runImport allOk 10 dTwoWin).events = totalBatches dTwoWin 10 ∧
    ∀ (total : Nat) (w : Int) (batch : List (Nat × ExportedTab)) (s : St),
      (batch.foldl (doTab allOk total w) s).importedCount =
        s.importedCount + batch.countP (tabOk allOk) :=
  progress_advance_and_sleep allOk 10 dTwoWin (by decide) rfl (fun _ => rfl)

/-- C2: under a host whose group-creation steps succeed, one import
runs the group-creation sequence at most once per original group id,
exactly once for every group referenced by some tab of the snapshot
(even when its tabs span several windows), and every tab assignment for
one original group id uses one and the same remapped group id. -/
theorem group_resolution_idempotent (o : Oracle) (bs : Nat) (d : ExportData)
    (hb : 1 ≤ bs) (hcur : o.currentWindowOk = true)
    (hcw : ∀ k, o.createWindowOk k = true) (ha : o.tabGroupsAvail = true)
    (hg : ∀ gid : Int, groupCreateOk o gid = true) :
    (∀ gid : Int, countTemp gid (runImport o bs d).events ≤ 1) ∧
    (∀ G ∈ d.groups, (∃ t ∈ d.tabs, t.groupId = G.id) →
      countTemp G.id (runImport o bs d).events = 1) ∧
    (∀ (gid : Int) (p t p' t' : Nat) (n n' : Int),
      Event.assignGroup gid p t n ∈ (runImport o bs d).events →
      Event.assignGroup gid p' t' n' ∈ (runImport o bs d).events → n = n') := by
  obtain ⟨s', heq, hpw, hic, hcc, hcs, hpj⟩ := runImport_facts o hb d hcur hcw
  rw [heq]
  dsimp only
  have hgo : ∀ gid : Int, GroupOnce gid s' := by
    intro gid
    have hinit : GroupOnce gid
        { events := [], progress := [none, some (0, d.tabs.length)], groupIdMap := [],
          importedCount := 0, nextTabId := 0, nextGroupId := 0, winOrd := 0 } := by
      constructor
      · simp [countTemp]
      · simp [countTemp, alookup]
    have h1 := processWindows_groupOnce gid o bs d.tabs.length d.groups
      ((tabsByWindow d.tabs.enum).head?.map Prod.fst) (hg gid)
      (tabsByWindow d.tabs.enum) _ hinit
    rw [hpw] at h1
    simpa [outState] using h1
  have hai : AssignInv s' := by
    have hinit : AssignInv
        { events := [], progress := [none, some (0, d.tabs.length)], groupIdMap := [],
          importedCount := 0, nextTabId := 0, nextGroupId := 0, winOrd := 0 } := by
      intro g p t n hmem
      simp at hmem
    have h1 := processWindows_assignInv o bs d.tabs.length d.groups
      ((tabsByWindow d.tabs.enum).head?.map Prod.fst) (tabsByWindow d.tabs.enum) _ hinit
    rw [hpw] at h1
    simpa [outState] using h1
  refine ⟨fun gid => (hgo gid).1, ?_, ?_⟩
  · intro G hG ⟨t, ht, hgid⟩
    have ht2 : t ∈ d.tabs.enum.map Prod.snd := by
      rw [List.enum_map_snd]
      exact ht
    obtain ⟨pt, hpt, hpt2⟩ := List.mem_map.mp ht2
    have hflat : pt ∈ flattenParts (tabsByWindow d.tabs.enum) :=
      (flattenParts_tabsByWindow d.tabs.enum).mem_iff.mpr hpt
    unfold flattenParts at hflat
    obtain ⟨l, hl, hpl⟩ := List.mem_flatten.mp hflat
    obtain ⟨q, hq, hql⟩ := List.mem_map.mp hl
    have href : ∃ p ∈ tabsByWindow d.tabs.enum, ∃ pt ∈ p.2, pt.2.groupId = G.id := by
      refine ⟨q, hq, pt, ?_, ?_⟩
      · rw [hql]
        exact hpl
      · rw [hpt2, hgid]
    have hsome := processWindows_refSome o bs d.tabs.length d.groups
      ((tabsByWindow d.tabs.enum).head?.map Prod.fst) ha (hg G.id) hG
      (tabsByWindow d.tabs.enum) _ s' hpw href
    exact (hgo G.id).2.mp hsome
  · intro gid p t p' t' n n' h1 h2
    have e1 := hai gid p t n h1
    have e2 := hai gid p' t' n' h2
    rw [e1] at e2
    exact Option.some.inj e2

/-- C2 witness: one group with tabs in two windows, all host calls
succeeding: one creation sequence, and all assignments agree. -/
theorem group_resolution_idempotent_witness :
    (∀ gid : Int, countTemp gid (runImport allOk 10 dGrouped).events ≤ 1) ∧
    (∀ G ∈ dGrouped.groups, (∃ t ∈ dGrouped.tabs, t.groupId = G.id) →
      countTemp G.id (runImport allOk 10 dGrouped).events = 1) ∧
    (∀ (gid : Int) (p t p' t' : Nat) (n n' : Int),
      Event.assignGroup gid p t n ∈ (runImport allOk 10 dGrouped).events →
      Event.assignGroup gid p' t' n' ∈ (runImport allOk 10 dGrouped).events → n = n') :=
  group_resolution_idempotent allOk 10 dGrouped (by decide) rfl (fun _ => rfl) rfl
    (fun _ => rfl)

/-- C4 counterexample: a tabs array whose single entry lacks a url is
accepted by the shape check of importTabs, while the claim predicts a
validation failure. -/
theorem validate_missing_url_cex :
    ¬ (validateTabs (TabsField.arr [({ url := none } : RawTab)]) = false ↔
       specRejects (TabsField.arr [({ url := none } : RawTab)]) = true) := by
  decide

/-- C4 amended: deserialisation fails exactly when the top-level tabs
field is absent or not a sequence; a tab entry lacking a url is never
checked and does not fail deserialisation. -/
theorem validate_fails_iff_not_array :
    ∀ f : TabsField RawTab,
      validateTabs f = false ↔ (f = TabsField.absent ∨ f = TabsField.nonArray) := by
  intro f
  cases f <;> simp [validateTabs]

/-- C5: an input without a valid tabs sequence aborts the import with
the failure status before any host call: the host-call trace is empty
and the progress signal only ever holds the reset value. -/
theorem malformed_no_mutations (o : Oracle) (bs : Nat) (pf : ParsedFile)
    (hbad : validateTabs pf.ptabs = false) :
    (importTabs o bs pf).events = [] ∧
    (importTabs o bs pf).ok = false ∧
    (importTabs o bs pf).message = StatusMsg.failure ∧
    (importTabs o bs pf).progress = [none, none] := by
  unfold importTabs
  cases hpt : pf.ptabs with
  | absent => exact ⟨rfl, rfl, rfl, rfl⟩
  | nonArray => exact ⟨rfl, rfl, rfl, rfl⟩
  | arr ts =>
    rw [hpt] at hbad
    simp [validateTabs] at hbad

/-- C5 witness: a file whose tabs field is absent. -/
theorem malformed_no_mutations_witness :
    (importTabs allOk 10 pfBad).events = [] ∧
    (importTabs allOk 10 pfBad).ok = false ∧
    (importTabs allOk 10 pfBad).message = StatusMsg.failure ∧
    (importTabs allOk 10 pfBad).progress = [none, none] :=
  malformed_no_mutations allOk 10 pfBad rfl

/-- C6: when the group-creation sequence fails for an original group id
(at whichever of its three fallible steps, every time it is attempted),
the import is not aborted: every tab is still created and counted
(under a host accepting tab creations and mute updates), the success
message is reported, and no group assignment is ever attempted for that
original group id. -/
theorem group_failure_tabs_ungrouped (o : Oracle) (bs : Nat) (d : ExportData) (g : Int)
    (hb : 1 ≤ bs) (hcur : o.currentWindowOk = true)
    (hcw : ∀ k, o.createWindowOk k = true) (hcr : ∀ p, o.createTabOk p = true)
    (hmu : ∀ p, o.muteOk p = true) (hfail : groupCreateOk o g = false) :
    (runImport o bs d).ok = true ∧
    (runImport o bs d).message = StatusMsg.success ((runImport o bs d).importedCount) ∧
    (runImport o bs d).importedCount = d.tabs.length ∧
    ∀ (p t : Nat) (n : Int), Event.assignGroup g p t n ∉ (runImport o bs d).events := by
  obtain ⟨s', heq, hpw, hic, hcc, hcs, hpj⟩ := runImport_facts o hb d hcur hcw
  rw [heq]
  dsimp only
  refine ⟨rfl, rfl, ?_, ?_⟩
  · rw [hic]
    have hall : ∀ pt ∈ d.tabs.enum, tabOk o pt = true := by
      intro pt _
      simp [tabOk, hcr pt.1, hmu pt.1]
    rw [List.countP_eq_length.mpr hall]
    exact List.enum_length
  · have hinit : NoGroupFor g
        { events := [], progress := [none, some (0, d.tabs.length)], groupIdMap := [],
          importedCount := 0, nextTabId := 0, nextGroupId := 0, winOrd := 0 } := by
      constructor
      · rfl
      · intro p t n hmem
        simp at hmem
    have h1 := processWindows_noGroup g o bs d.tabs.length d.groups
      ((tabsByWindow d.tabs.enum).head?.map Prod.fst) hfail
      (tabsByWindow d.tabs.enum) _ hinit
    rw [hpw] at h1
    simp only [outState] at h1
    exact h1.2

/-- C6 witness: the grouped two-window snapshot under a host that
rejects the grouping of the placeholder tab: both tabs imported and
counted, none assigned to a group for original id 5. -/
theorem group_failure_tabs_ungrouped_witness :
    (runImport oGroupFail 10 dGrouped).ok = true ∧
    (runImport oGroupFail 10 dGrouped).message =
      StatusMsg.success ((runImport oGroupFail 10 dGrouped).importedCount) ∧
    (runImport oGroupFail 10 dGrouped).importedCount = dGrouped.tabs.length ∧
    ∀ (p t : Nat) (n : Int),
      Event.assignGroup 5 p t n ∉ (runImport oGroupFail 10 dGrouped).events :=
  group_failure_tabs_ungrouped oGroupFail 10 dGrouped 5 (by decide) rfl (fun _ => rfl)
    (fun _ => rfl) (fun _ => rfl) rfl

/-- The visible progress entries of a finished import are monotone,
bounded by the total, and followed by the final reset. -/
theorem finalProgress_props (total n : Nat) (hn : n ≤ total) :
    List.Pairwise (fun a b : Nat => a ≤ b)
      (((progShape total n ++ [none]).filterMap id).map Prod.fst) ∧
    (∀ pr ∈ (progShape total n ++ [none]).filterMap id, pr.1 ≤ pr.2) ∧
    (progShape total n ++ [none]).getLast? = some none := by
  have hfm : (progShape total n ++ [none]).filterMap id =
      (0, total) :: (List.range n).map (fun k => (k + 1, total)) := by
    rw [List.filterMap_append, progShape_filterMap]
    simp
  refine ⟨?_, ?_, ?_⟩
  · rw [hfm]
    exact pairwise_le_range_map n total
  · rw [hfm]
    intro pr hpr
    rcases List.mem_cons.mp hpr with h1 | h2
    · subst h1
      simp
    · obtain ⟨k, hk, hke⟩ := List.mem_map.mp h2
      have hkn : k < n := List.mem_range.mp hk
      rw [← hke]
      simp
      omega
  · exact List.getLast?_concat _

theorem runImport_progress_props (o : Oracle) (bs : Nat) (d : ExportData) :
    List.Pairwise (fun a b : Nat => a ≤ b)
      (((runImport o bs d).progress.filterMap id).map Prod.fst) ∧
    (∀ pr ∈ (runImport o bs d).progress.filterMap id, pr.1 ≤ pr.2) ∧
    (runImport o bs d).progress.getLast? = some none := by
  have hinit : ProgressOk d.tabs.length
      { events := [], progress := [none, some (0, d.tabs.length)], groupIdMap := [],
        importedCount := 0, nextTabId := 0, nextGroupId := 0, winOrd := 0 } := by
    constructor
    · rfl
    · simp [countCreate]
  have hprog := processWindows_progressOk d.tabs.length o bs d.groups
    ((tabsByWindow d.tabs.enum).head?.map Prod.fst) (tabsByWindow d.tabs.enum) _ hinit
  have hbound := processWindows_countCreate_le o bs d.tabs.length d.groups
    ((tabsByWindow d.tabs.enum).head?.map Prod.fst) (tabsByWindow d.tabs.enum)
    { events := [], progress := [none, some (0, d.tabs.length)], groupIdMap := [],
      importedCount := 0, nextTabId := 0, nextGroupId := 0, winOrd := 0 }
  have hsum := sum_sizes_tabsByWindow d.tabs.enum
  have hlen : d.tabs.enum.length = d.tabs.length := List.enum_length
  cases hpw : processWindows o bs d.tabs.length d.groups
      ((tabsByWindow d.tabs.enum).head?.map Prod.fst) (tabsByWindow d.tabs.enum)
      { events := [], progress := [none, some (0, d.tabs.length)], groupIdMap := [],
        importedCount := 0, nextTabId := 0, nextGroupId := 0, winOrd := 0 } with
  | ok s' =>
    rw [runImport_eq_ok o bs d s' hpw]
    rw [hpw] at hprog hbound
    simp only [outState] at hprog hbound
    obtain ⟨hshape, hle⟩ := hprog
    have hn : s'.importedCount ≤ d.tabs.length := by
      simp only [countCreate, List.countP_nil] at hbound hle
      rw [hsum, hlen] at hbound
      omega
    dsimp only
    rw [hshape]
    exact finalProgress_props d.tabs.length s'.importedCount hn
  | error s' =>
    rw [runImport_eq_error o bs d s' hpw]
    rw [hpw] at hprog hbound
    simp only [outState] at hprog hbound
    obtain ⟨hshape, hle⟩ := hprog
    have hn : s'.importedCount ≤ d.tabs.length := by
      simp only [countCreate, List.countP_nil] at hbound hle
      rw [hsum, hlen] at hbound
      omega
    dsimp only
    rw [hshape]
    exact finalProgress_props d.tabs.length s'.importedCount hn

/-- C9: over the lifetime of one import of a parsed file (valid or not)
the progress signal's current component is monotonically non-decreasing
and never exceeds its total component, and the last progress update is
the reset to the absent value. -/
theorem progress_monotone_bounded_reset (o : Oracle) (bs : Nat) (pf : ParsedFile)
    (hb : 1 ≤ bs) :
    List.Pairwise (fun a b : Nat => a ≤ b)
      (((importTabs o bs pf).progress.filterMap id).map Prod.fst) ∧
    (∀ pr ∈ (importTabs o bs pf).progress.filterMap id, pr.1 ≤ pr.2) ∧
    (importTabs o bs pf).progress.getLast? = some none := by
  unfold importTabs
  cases hpt : pf.ptabs with
  | absent =>
    refine ⟨?_, ?_, rfl⟩
    · simp
    · intro pr hpr
      simp at hpr
  | nonArray =>
    refine ⟨?_, ?_, rfl⟩
    · simp
    · intro pr hpr
      simp at hpr
  | arr ts =>
    exact runImport_progress_props o bs { tabs := ts, groups := pf.groups }

/-- C9 witness: a valid three-tab file under the all-success host. -/
theorem progress_monotone_bounded_reset_witness :
    List.Pairwise (fun a b : Nat => a ≤ b)
      (((importTabs allOk 10 pfThree).progress.filterMap id).map Prod.fst) ∧
    (∀ pr ∈ (importTabs allOk 10 pfThree).progress.filterMap id, pr.1 ≤ pr.2) ∧
    (importTabs allOk 10 pfThree).progress.getLast? = some none :=
  progress_monotone_bounded_reset allOk 10 pfThree (by decide)

/-- C10: for a positive batchSize the batch loop of every window
partition terminates, executing exactly the ceiling of the partition
size over batchSize many batches, because every loop step strictly
advances the index and ceiling-many steps reach the bound; for
batchSize 0 the loop index never advances, so positivity is a necessary
precondition. -/
theorem import_loop_termination (bs : Nat) (hb : 1 ≤ bs) :
    (∀ l : List (Nat × ExportedTab), (chunkList bs l).length = ceilDiv l.length bs) ∧
    (∀ i : Nat, i < batchIndexStep bs i) ∧
    (∀ n : Nat, n ≤ ceilDiv n bs * bs) ∧
    (∀ i : Nat, batchIndexStep 0 i = i) := by
  refine ⟨fun l => chunkList_length hb l, fun i => ?_, fun n => ceilDiv_mul_ge hb,
    fun i => ?_⟩
  · unfold batchIndexStep
    omega
  · unfold batchIndexStep
    omega

/-- C10 witness: batchSize 3. -/
theorem import_loop_termination_witness :
    (∀ l : List (Nat × ExportedTab), (chunkList 3 l).length = ceilDiv l.length 3) ∧
    (∀ i : Nat, i < batchIndexStep 3 i) ∧
    (∀ n : Nat, n ≤ ceilDiv n 3 * 3) ∧
    (∀ i : Nat, batchIndexStep 0 i = i) :=
  import_loop_termination 3 (by decide)

end ChromeNewTab
